import Mathlib

/-!
# SdFat `ExFatDbg.cpp`: directory entry-set validator and upcase-table auditor

Shallow embedding of `exFatDirChecksum`, `hashDir`, `ExFatPartition::printDir`
and `ExFatPartition::checkUpcase`.

Conventions of the embedding.
* Machine integers are `Nat`; every conversion to a fixed-width type is an
  explicit `% 2 ^ n`.  `intBits` is the width of `int` / `unsigned int` of the
  target (16 on AVR, 32 elsewhere): `uint8_t` / `uint16_t` operands are promoted
  to it before arithmetic.  `sizeBits` is the width of `size_t`.
* A pointer into a buffer is the list of bytes starting at the pointed-to
  address: `p[i]` is `p.getD i 0`, `p + n` is `p.drop n`.
* Printed output is modelled as a list of print events, one constructor per
  group of `print` calls of the source.
-/

namespace ExFatDbg

/-! ## Constants and record layouts declared in `FsStructs.h` -/

/-- Modelled from the spec: tag of the `EndOfDirectory` record; the constant
`EXFAT_TYPE_END_DIR` is declared in the header `FsStructs.h`, which is not
embedded here.  Value of the exFAT on-disk format, as for the tags below. -/
def EXFAT_TYPE_END_DIR : Nat := 0x00

/-- Modelled from the spec: the "in-use" high bit of the tag byte
(`EXFAT_TYPE_USED`, declared in `FsStructs.h`). -/
def EXFAT_TYPE_USED : Nat := 0x80

/-- Modelled from the spec: tag of the `Bitmap` record (`FsStructs.h`). -/
def EXFAT_TYPE_BITMAP : Nat := 0x81

/-- Modelled from the spec: tag of the `UpcaseTable` record (`FsStructs.h`). -/
def EXFAT_TYPE_UPCASE : Nat := 0x82

/-- Modelled from the spec: tag of the `VolumeLabel` record (`FsStructs.h`). -/
def EXFAT_TYPE_LABEL : Nat := 0x83

/-- Modelled from the spec: tag of the primary `File` record (`FsStructs.h`). -/
def EXFAT_TYPE_FILE : Nat := 0x85

/-- Modelled from the spec: tag of the `StreamExtension` record (`FsStructs.h`). -/
def EXFAT_TYPE_STREAM : Nat := 0xC0

/-- Modelled from the spec: tag of the `FileName` record (`FsStructs.h`). -/
def EXFAT_TYPE_NAME : Nat := 0xC1

/-- Modelled from the spec: byte offset of `DirFile_t::setCount`
(`struct DirFile_t { uint8_t type; uint8_t setCount; uint8_t setChecksum[2]; ... }`,
declared in `FsStructs.h`). -/
def DirFile_setCount : Nat := 1

/-- Modelled from the spec: byte offset of `DirFile_t::setChecksum` (`FsStructs.h`). -/
def DirFile_setChecksum : Nat := 2

/-- Modelled from the spec: byte offset of `DirStream_t::nameLength`
(`struct DirStream_t { uint8_t type; uint8_t flags; uint8_t reserved1;
uint8_t nameLength; uint8_t nameHash[2]; ... }`, declared in `FsStructs.h`). -/
def DirStream_nameLength : Nat := 3

/-- Modelled from the spec: byte offset of `DirStream_t::nameHash` (`FsStructs.h`). -/
def DirStream_nameHash : Nat := 4

/-- Modelled from the spec: byte offset of `DirName_t::unicode`
(`struct DirName_t { uint8_t type; uint8_t mustBeZero; uint8_t unicode[30]; }`,
declared in `FsStructs.h`). -/
def DirName_unicode : Nat := 2

/-- Modelled from the spec: byte offset of `DirUpcase_t::firstCluster`
(`struct DirUpcase_t { uint8_t type; uint8_t reserved1[3]; uint8_t checksum[4];
uint8_t reserved2[12]; uint8_t firstCluster[4]; uint8_t size[8]; }`, `FsStructs.h`). -/
def DirUpcase_firstCluster : Nat := 20

/-- Modelled from the spec: byte offset of `DirUpcase_t::size` (`FsStructs.h`). -/
def DirUpcase_size : Nat := 24

/-- Modelled from the spec: `getLe16` (declared in `FsStructs.h`) reads a
little-endian 16-bit value at a byte pointer and returns it as `uint16_t`. -/
def getLe16 (src : List Nat) : Nat :=
  (src.getD 0 0 ||| (src.getD 1 0 <<< 8)) % 65536

/-- Modelled from the spec: `getLe32` (`FsStructs.h`), little-endian 32-bit read. -/
def getLe32 (src : List Nat) : Nat :=
  (src.getD 0 0 ||| (src.getD 1 0 <<< 8) ||| (src.getD 2 0 <<< 16) |||
    (src.getD 3 0 <<< 24)) % 4294967296

/-- Modelled from the spec: `getLe64` (`FsStructs.h`), little-endian 64-bit read. -/
def getLe64 (src : List Nat) : Nat :=
  (getLe32 src ||| (getLe32 (src.drop 4) <<< 32)) % 18446744073709551616

/-- The external `uint16_t toUpcase(uint16_t chr)` of `common/upcase.h`, given
as a parameter `up`: the argument is converted to `uint16_t` at the call and
the result is a `uint16_t`. -/
def toUpcase (up : Nat → Nat) (chr : Nat) : Nat := up (chr % 65536) % 65536

/-! ## Checksum and hash primitives -/

/-- The statement `checksum = ((checksum << 15) | (checksum >> 1)) + b;` on a
`uint16_t checksum`: the operands are promoted to `int` (or to `unsigned int`
where `int` has 16 bits), the expression is evaluated in `intBits` bits with
wrap-around (for a 32-bit `int` the sum exceeds `INT_MAX` only at
`checksum = 0xFFFF`, where it is taken to wrap in two's complement), and the
assignment converts the result to `uint16_t`. -/
def rotAdd (intBits checksum b : Nat) : Nat :=
  (((((checksum <<< 15) % 2 ^ intBits) ||| (checksum >>> 1)) + b) % 2 ^ intBits) % 65536

/-- The loop `for (size_t i = 0; i < 32; i += (i == 1 && skip ? 3 : 1))` of
`exFatDirChecksum`; the first argument bounds the number of iterations. -/
def exFatDirChecksumLoop (intBits : Nat) (data : List Nat) (skip : Bool) :
    Nat → Nat → Nat → Nat
  | 0, _, checksum => checksum
  | fuel + 1, i, checksum =>
    if i < 32 then
      exFatDirChecksumLoop intBits data skip fuel
        (i + (if i = 1 ∧ skip = true then 3 else 1))
        (rotAdd intBits checksum (data.getD i 0))
    else checksum

/-- `static uint16_t exFatDirChecksum(const void* dir, uint16_t checksum)`. -/
def exFatDirChecksum (intBits : Nat) (dir : List Nat) (checksum : Nat) : Nat :=
  exFatDirChecksumLoop intBits dir (dir.getD 0 0 == EXFAT_TYPE_FILE) 32 0 checksum

/-- The loop `for (uint8_t i = 0; i < 30; i += 2)` of `hashDir`, with its
`break` on a zero code unit; the first argument bounds the number of iterations. -/
def hashDirLoop (intBits : Nat) (up : Nat → Nat) (dir : List Nat) :
    Nat → Nat → Nat → Nat
  | 0, _, hash => hash
  | fuel + 1, i, hash =>
    if i < 30 then
      let u := getLe16 (dir.drop (DirName_unicode + i))
      if u = 0 then hash
      else
        let c := toUpcase up u
        let hash := rotAdd intBits hash (c &&& 0xFF)
        let hash := rotAdd intBits hash (c >>> 8)
        hashDirLoop intBits up dir fuel ((i + 2) % 256) hash
    else hash

/-- `static uint16_t hashDir(DirName_t* dir, uint16_t hash)`. -/
def hashDir (intBits : Nat) (up : Nat → Nat) (dir : List Nat) (hash : Nat) : Nat :=
  hashDirLoop intBits up dir 15 0 hash

/-! ### Rotate-and-add as the specification words it -/

/-- The 16-bit rotate right by one bit, `((c << 15) | (c >> 1)) & 0xFFFF`. -/
def rotateRight16 (c : Nat) : Nat := ((c <<< 15) ||| (c >>> 1)) &&& 0xFFFF

/-- One step of the rolling checksum: `c -> (rotate_right_16(c, 1) + byte) mod 2^16`. -/
def checksumStep (c byte : Nat) : Nat := (rotateRight16 c + byte) % 65536

/-- One step of the name hash on an already case-folded code unit `c`: the low
byte, then the high byte. -/
def hashStepFolded (h c : Nat) : Nat :=
  checksumStep (checksumStep h (c &&& 0xFF)) (c >>> 8)

/-- One step of the name hash on a code unit `u`: case-fold, then low byte,
then high byte. -/
def hashStep (up : Nat → Nat) (h u : Nat) : Nat := hashStepFolded h (toUpcase up u)

/-- The 15 little-endian code units of the name slot of a `FileName` record. -/
def nameUnits (dir : List Nat) : List Nat :=
  (List.range 15).map (fun j => getLe16 (dir.drop (DirName_unicode + 2 * j)))

/-- The bytes of a 32-byte record, in offset order 0..31. -/
def recordBytes (dir : List Nat) : List Nat :=
  (List.range 32).map (fun i => dir.getD i 0)

/-- The bytes of a record at offsets 0, 1 and 4..31. -/
def recordBytesNoChecksum (dir : List Nat) : List Nat :=
  [dir.getD 0 0, dir.getD 1 0] ++ (List.range 28).map (fun i => dir.getD (i + 4) 0)

/-! ## `ExFatPartition::printDir` -/

/-- The relation `printDir` prints between a stored and a computed value:
`" == "` or `" != "`. -/
inductive Rel where
  | eq
  | ne
  deriving DecidableEq, Repr

/-- What `printDir` prints while it handles one directory record.  The
constructors `dirBitmap` .. `dirName` stand for the field dumps of
`printDirBitmap`, `printDirUpcase`, `printDirLabel`, `printDirFile`,
`printDirStream` and `printDirName` and carry the 32 bytes of the record;
`setChecksum` and `nameHash` are the two comparison lines; `unknownType` and
`unusedType` are the two outputs of the `default` case, with the tag byte and
the record handed to `dmpDirData`. -/
inductive DirOut where
  | dirBitmap (dir : List Nat)
  | dirUpcase (dir : List Nat)
  | dirLabel (dir : List Nat)
  | dirFile (dir : List Nat)
  | dirStream (dir : List Nat)
  | dirName (dir : List Nat)
  | setChecksum (stored : Nat) (rel : Rel) (computed : Nat)
  | nameHash (stored : Nat) (rel : Rel) (computed : Nat)
  | unknownType (type : Nat) (dir : List Nat)
  | unusedType (type : Nat) (dir : List Nat)
  deriving DecidableEq, Repr

/-- The local variables of `printDir` that live across loop iterations. -/
structure PrintDirVars where
  calcHash : Nat
  nameHash : Nat
  setChecksum : Nat
  calcChecksum : Nat
  nameLength : Nat
  setCount : Nat
  deriving DecidableEq, Repr

/-- The initial values: every variable is initialised to 0. -/
def PrintDirVars.init : PrintDirVars := ⟨0, 0, 0, 0, 0, 0⟩

/-- The comparison printed for `stored` against `computed`. -/
def relOf (stored computed : Nat) : Rel := if stored ≠ computed then Rel.ne else Rel.eq

/-- The `switch (dir->type)` of `printDir` on the record at `dir`: the new
values of the variables and what is printed.  `uint8_t` decrements wrap. -/
def printDirSwitch (intBits : Nat) (up : Nat → Nat) (v : PrintDirVars) (dir : List Nat) :
    PrintDirVars × List DirOut :=
  let type := dir.getD 0 0
  if type = EXFAT_TYPE_BITMAP then (v, [DirOut.dirBitmap (dir.take 32)])
  else if type = EXFAT_TYPE_UPCASE then (v, [DirOut.dirUpcase (dir.take 32)])
  else if type = EXFAT_TYPE_LABEL then (v, [DirOut.dirLabel (dir.take 32)])
  else if type = EXFAT_TYPE_FILE then
    ({ v with
        setCount := dir.getD DirFile_setCount 0
        setChecksum := getLe16 (dir.drop DirFile_setChecksum)
        calcChecksum := exFatDirChecksum intBits dir 0 },
      [DirOut.dirFile (dir.take 32)])
  else if type = EXFAT_TYPE_STREAM then
    ({ v with
        nameLength := dir.getD DirStream_nameLength 0
        nameHash := getLe16 (dir.drop DirStream_nameHash)
        calcChecksum := exFatDirChecksum intBits dir v.calcChecksum
        setCount := (v.setCount + 255) % 256
        calcHash := 0 },
      [DirOut.dirStream (dir.take 32)])
  else if type = EXFAT_TYPE_NAME then
    let calcChecksum := exFatDirChecksum intBits dir v.calcChecksum
    let nUnicode := if v.nameLength > 15 then 15 else v.nameLength
    let calcHash := hashDir intBits up dir v.calcHash
    let nameLength := (v.nameLength + 256 - nUnicode) % 256
    let setCount := (v.setCount + 255) % 256
    ({ v with
        calcChecksum := calcChecksum
        calcHash := calcHash
        nameLength := nameLength
        setCount := setCount },
      DirOut.dirName (dir.take 32) ::
        (if nameLength = 0 ∨ setCount = 0 then
          [DirOut.setChecksum v.setChecksum (relOf v.setChecksum calcChecksum) calcChecksum,
           DirOut.nameHash v.nameHash (relOf v.nameHash calcHash) calcHash]
        else []))
  else if type &&& EXFAT_TYPE_USED ≠ 0 then (v, [DirOut.unknownType type (dir.take 32)])
  else (v, [DirOut.unusedType type (dir.take 32)])

/-- The result of `printDir`: `out` has one entry per record for which the loop
body ran past the `EXFAT_TYPE_END_DIR` test (each starts with the blank line
of `pr->println()`); `ret` is the return value, and `"Done"` is printed exactly
when it is `true`. -/
structure PrintDirResult where
  out : List (List DirOut)
  ret : Bool
  deriving DecidableEq, Repr

/-- The `RAW_ROOT` prologue of the loop body: at `iDir % 16 == 0` the next
sector is fetched through `dataCachePrepare(sector++, ...)` (`none` when it
returns a null pointer), otherwise `dir++`.  Returns the new `dir` and
`sector`. -/
def printDirFetch (dataCachePrepare : Nat → Option (List Nat)) (iDir sector : Nat)
    (dir : List Nat) : Option (List Nat × Nat) :=
  if iDir % 16 = 0 then
    match dataCachePrepare sector with
    | none => none
    | some cache => some (cache, (sector + 1) % 4294967296)
  else some (dir.drop 32, sector)

/-- The loop `for (uint32_t iDir = 0; iDir < nDir; iDir++)` of `printDir`; the
first numeric argument is `nDir - iDir`, the number of iterations left. -/
def printDirLoop (intBits : Nat) (up : Nat → Nat)
    (dataCachePrepare : Nat → Option (List Nat)) :
    Nat → Nat → Nat → List Nat → PrintDirVars → PrintDirResult
  | 0, _, _, _, _ => ⟨[], true⟩
  | left + 1, iDir, sector, dir, v =>
    match printDirFetch dataCachePrepare iDir sector dir with
    | none => ⟨[], false⟩
    | some (dir, sector) =>
      if dir.getD 0 0 = EXFAT_TYPE_END_DIR then ⟨[], true⟩
      else
        let r := printDirSwitch intBits up v dir
        let rest := printDirLoop intBits up dataCachePrepare left (iDir + 1) sector dir r.1
        ⟨r.2 :: rest.out, rest.ret⟩

/-- The number of records `printDir` scans at most:
`uint32_t nDir = 1UL << (m_sectorsPerClusterShift + 4);`. -/
def nDirOf (sectorsPerClusterShift : Nat) : Nat :=
  (1 <<< (sectorsPerClusterShift + 4)) % 4294967296

/-- `bool ExFatPartition::printDir(print_t* pr, ExFatFile* file)` as compiled
with `RAW_ROOT` defined.  `rootSector` is the value of the member call
`clusterStartSector(m_rootDirectoryCluster)` and `sectorsPerClusterShift` the
member `m_sectorsPerClusterShift`; `nDir = 1UL << (m_sectorsPerClusterShift + 4)`
and `sector` are `uint32_t`. -/
def printDir (intBits : Nat) (up : Nat → Nat) (dataCachePrepare : Nat → Option (List Nat))
    (rootSector sectorsPerClusterShift : Nat) : PrintDirResult :=
  printDirLoop intBits up dataCachePrepare
    (nDirOf sectorsPerClusterShift) 0 (rootSector % 4294967296) [] PrintDirVars.init

/-! ### The record stream seen by `printDir` -/

/-- The 32 bytes of the record the loop visits at index `iDir`: record
`iDir % 16` of the sector `rootSector + iDir / 16`. -/
def dirAt (dataCachePrepare : Nat → Option (List Nat)) (rootSector iDir : Nat) :
    Option (List Nat) :=
  (dataCachePrepare ((rootSector + iDir / 16) % 4294967296)).map
    (fun cache => (cache.drop (32 * (iDir % 16))).take 32)

/-- The stream of records at indices `0 .. n-1` can be read and holds no
`EndOfDirectory` record. -/
def readableUpTo (dataCachePrepare : Nat → Option (List Nat)) (rootSector n : Nat) : Prop :=
  ∀ j, j < n → ∃ d, dirAt dataCachePrepare rootSector j = some d ∧
    d.getD 0 0 ≠ EXFAT_TYPE_END_DIR

/-- The records at indices `i .. i+m-1` of the stream. -/
def streamRecords (dataCachePrepare : Nat → Option (List Nat)) (rootSector i m : Nat) :
    List (List Nat) :=
  (List.range' i m).map (fun j => (dirAt dataCachePrepare rootSector j).getD [])

/-- The values of `sector` and `dir` at the head of iteration `iDir` of the loop
of `printDir`: `sector` has been incremented once per sector fetched, and
inside a sector `dir` points at the previous record. -/
def loopInv (dataCachePrepare : Nat → Option (List Nat)) (rootSector iDir sector : Nat)
    (dir : List Nat) : Prop :=
  sector = (rootSector + (iDir + 15) / 16) % 4294967296 ∧
    (iDir % 16 ≠ 0 → ∃ c, dataCachePrepare ((rootSector + iDir / 16) % 4294967296) = some c ∧
      dir = c.drop (32 * (iDir % 16 - 1)))

/-- The `switch` run over a list of records in order: the final variables and
the output of each record. -/
def runRecords (intBits : Nat) (up : Nat → Nat) :
    PrintDirVars → List (List Nat) → PrintDirVars × List (List DirOut)
  | v, [] => (v, [])
  | v, d :: ds =>
    let r := printDirSwitch intBits up v d
    let rest := runRecords intBits up r.1 ds
    (rest.1, r.2 :: rest.2)

/-- The kinds of finding the specification distinguishes. -/
inductive FindingKind where
  | ChecksumMismatch
  | HashMismatch
  | MalformedSet
  | UnknownType
  | Ok
  deriving DecidableEq, Repr

/-- The finding kinds carried by the output of one record: the comparison
printed at a `FileName` record is `Ok` when both lines read `==`, otherwise a
`ChecksumMismatch` and/or a `HashMismatch`; the `default` case is an
`UnknownType` finding; field dumps carry no finding. -/
def blockFindings : List DirOut → List FindingKind
  | [] => []
  | DirOut.setChecksum _ r1 _ :: DirOut.nameHash _ r2 _ :: rest =>
    (if r1 = Rel.eq ∧ r2 = Rel.eq then [FindingKind.Ok]
     else (if r1 = Rel.ne then [FindingKind.ChecksumMismatch] else []) ++
          (if r2 = Rel.ne then [FindingKind.HashMismatch] else [])) ++ blockFindings rest
  | DirOut.unknownType _ _ :: rest => FindingKind.UnknownType :: blockFindings rest
  | DirOut.unusedType _ _ :: rest => FindingKind.UnknownType :: blockFindings rest
  | _ :: rest => blockFindings rest

/-- All findings of a run of `printDir`, in order. -/
def findings (r : PrintDirResult) : List FindingKind :=
  r.out.flatMap blockFindings

/-! ### Entry sets -/

/-- A directory record: 32 bytes. -/
def isRecord (d : List Nat) : Prop := d.length = 32 ∧ ∀ b ∈ d, b < 256

instance (d : List Nat) : Decidable (isRecord d) := by unfold isRecord; infer_instance

/-- The content of a name slot holding the code units `l`: the units, then zero
padding up to 15 units. -/
def padUnits (l : List Nat) : List Nat := l ++ List.replicate (15 - l.length) 0

/-- The checksum stored in a `File` record, `getLe16(dirFile->setChecksum)`. -/
def storedSetChecksum (file : List Nat) : Nat := getLe16 (file.drop DirFile_setChecksum)

/-- The name hash stored in a `StreamExtension` record,
`getLe16(dirStream->nameHash)`. -/
def storedNameHash (stream : List Nat) : Nat := getLe16 (stream.drop DirStream_nameHash)

/-- A well-formed entry set for the name `name`: one `File` record whose
`setCount` is `1 + N`, one `StreamExtension` record declaring the name length
`L` with `15 (N - 1) < L ≤ 15 N`, then `N ≥ 1` `FileName` records holding the
`L` code units of the name, all non-zero, followed by zero padding. -/
def wellFormedSet (file stream : List Nat) (names : List (List Nat)) (name : List Nat) :
    Prop :=
  isRecord file ∧ isRecord stream ∧ (∀ d ∈ names, isRecord d) ∧
  file.getD 0 0 = EXFAT_TYPE_FILE ∧ stream.getD 0 0 = EXFAT_TYPE_STREAM ∧
  (∀ d ∈ names, d.getD 0 0 = EXFAT_TYPE_NAME) ∧
  1 ≤ names.length ∧
  file.getD DirFile_setCount 0 = 1 + names.length ∧
  stream.getD DirStream_nameLength 0 = name.length ∧
  15 * (names.length - 1) < name.length ∧ name.length ≤ 15 * names.length ∧
  (∀ u ∈ name, u ≠ 0 ∧ u < 65536) ∧
  (∀ k, k < names.length →
    nameUnits (names.getD k []) = padUnits ((name.drop (15 * k)).take 15))

instance (file stream : List Nat) (names : List (List Nat)) (name : List Nat) :
    Decidable (wellFormedSet file stream names name) := by
  unfold wellFormedSet; infer_instance

/-- The rotate-and-add checksum of all records of an entry set, seed 0, with the
`File` record's stored `setChecksum` field (offsets 2..3) excluded. -/
def setChecksumOf (file stream : List Nat) (names : List (List Nat)) : Nat :=
  ((file.take 2 ++ file.drop 4) ++ stream ++ names.flatten).foldl checksumStep 0

/-- The name hash of a name: the fold of `hashStep` (case-fold, low byte, high
byte) over its code units, seed 0. -/
def nameHashOf (up : Nat → Nat) (name : List Nat) : Nat := name.foldl (hashStep up) 0

/-- The records at indices `p .. p + recs.length - 1` of the stream are `recs`. -/
def recordsAt (dataCachePrepare : Nat → Option (List Nat)) (rootSector p : Nat)
    (recs : List (List Nat)) : Prop :=
  ∀ k, k < recs.length → dirAt dataCachePrepare rootSector (p + k) = some (recs.getD k [])

instance (dataCachePrepare : Nat → Option (List Nat)) (rootSector p : Nat)
    (recs : List (List Nat)) : Decidable (recordsAt dataCachePrepare rootSector p recs) := by
  unfold recordsAt; infer_instance

/-- The output of `printDir` for the record at index `j` of the stream. -/
def blockAt (r : PrintDirResult) (j : Nat) : List DirOut := r.out.getD j []

/-- The value of `calcChecksum` after the `File` record, the `StreamExtension`
record and the first `k` `FileName` records of a set. -/
def checksumThrough (intBits : Nat) (file stream : List Nat) (names : List (List Nat))
    (k : Nat) : Nat :=
  (names.take k).foldl (fun c d => exFatDirChecksum intBits d c)
    (exFatDirChecksum intBits stream (exFatDirChecksum intBits file 0))

/-- The value of `calcHash` after the first `k` `FileName` records of a set. -/
def hashThrough (intBits : Nat) (up : Nat → Nat) (names : List (List Nat)) (k : Nat) : Nat :=
  (names.take k).foldl (fun h d => hashDir intBits up d h) 0

/-- The two comparison lines `printDir` prints at a `FileName` record. -/
def comparison (storedChecksum calcChecksum storedHash calcHash : Nat) : List DirOut :=
  [DirOut.setChecksum storedChecksum (relOf storedChecksum calcChecksum) calcChecksum,
   DirOut.nameHash storedHash (relOf storedHash calcHash) calcHash]

/-- The finding kinds `printDir` emits for the records at indices
`p .. p + n - 1` of the stream. -/
def findingsAt (r : PrintDirResult) (p n : Nat) : List FindingKind :=
  (List.range n).flatMap (fun k => blockFindings (blockAt r (p + k)))

/-- The records `recs` with the byte at offset `o` of record `r` replaced by `b`. -/
def setByte (recs : List (List Nat)) (r o b : Nat) : List (List Nat) :=
  recs.set r ((recs.getD r []).set o b)

/-- The rotate-and-add checksum `setChecksumOf` of a list of records taken as
`File`, `StreamExtension`, `FileName`... -/
def checksumOfRecords (recs : List (List Nat)) : Nat :=
  setChecksumOf (recs.getD 0 []) (recs.getD 1 []) (recs.drop 2)

/-- The code units of a name slot that `hashDir` hashes: those before the first
zero unit. -/
def hashedUnits (dir : List Nat) : List Nat :=
  (nameUnits dir).takeWhile (fun u => decide (u ≠ 0))

/-- The fold of `hashStep` over the hashed units of a list of `FileName`
records, in order, seed 0. -/
def slotsHash (up : Nat → Nat) (names : List (List Nat)) : Nat :=
  (names.flatMap hashedUnits).foldl (hashStep up) 0

/-! ## `ExFatPartition::checkUpcase` -/

/-- What `checkUpcase` prints for one table value: `skip` is the line
`"skip " u ' ' v` printed while the skip flag is set; `skipMismatch` is the line
`(uint16_t)(u+k) ',' x "<<<<<<<<<<<<<<<<<<<<"` of the skip-run check;
`mapMismatch` is the line `u ',' x ',' v` of the mapping check. -/
inductive UpcaseOut where
  | skip (u v : Nat)
  | skipMismatch (codePoint x : Nat)
  | mapMismatch (u x v : Nat)
  deriving DecidableEq, Repr

/-- How `checkUpcase` ends: one of the three early `return`s with their message,
or the end of the table (`"Done checkUpcase"`). -/
inductive UpcaseEnd where
  | readRootFailed
  | upcaseNotFound
  | readUpcaseFailed
  | done
  deriving DecidableEq, Repr

/-- The output of `checkUpcase` and how it ended. -/
structure CheckUpcaseResult where
  out : List UpcaseOut
  status : UpcaseEnd
  deriving DecidableEq, Repr

/-- The inner loop `for (uint16_t k = 0; k < v; k++)` of the skip-run branch.
`u + k` is computed after integer promotion, in `intBits` bits; it is converted
to `uint16_t` for the call of `toUpcase` and for `printHex`, and compared with
`x` unconverted. -/
def skipRunOut (intBits : Nat) (up : Nat → Nat) (u v : Nat) : List UpcaseOut :=
  (List.range v).filterMap (fun k =>
    let s := (u + k) % 2 ^ intBits
    let x := toUpcase up s
    if x ≠ s then some (UpcaseOut.skipMismatch (s % 65536) x) else none)

/-- The body of the table loop of `checkUpcase` after the value `v` has been
read: the new `skip` and `u`, and what is printed.  `u` is a `uint16_t`. -/
def checkUpcaseBody (intBits : Nat) (up : Nat → Nat) (skip : Bool) (u v : Nat) :
    (Bool × Nat) × List UpcaseOut :=
  let o1 := if skip then [UpcaseOut.skip u v] else []
  if v = 0xFFFF then ((true, u), o1)
  else if skip then ((false, (u + v) % 65536), o1 ++ skipRunOut intBits up u v)
  else
    let x := toUpcase up u
    ((skip, (u + 1) % 65536), o1 ++ (if v ≠ x then [UpcaseOut.mapMismatch u x v] else []))

/-- The sector fetch at the head of the table loop: at `i % 256 == 0` the next
sector is read through `dataCachePrepare(sector++, ...)`, otherwise `upcase`
and `sector` are unchanged. -/
def checkUpcaseFetch (dataCachePrepare : Nat → Option (List Nat)) (i sector : Nat)
    (upcase : List Nat) : Option (List Nat × Nat) :=
  if i % 256 = 0 then
    match dataCachePrepare sector with
    | none => none
    | some cache => some (cache, (sector + 1) % 4294967296)
  else some (upcase, sector)

/-- The loop `for (size_t i = 0; i < size/2; i++)` of `checkUpcase`.  The
counter `i` is a `size_t` of `sizeBits` bits and wraps; the loop is run for at
most `fuel` iterations, and `none` means that it has not ended by then. -/
def checkUpcaseLoop (intBits sizeBits : Nat) (up : Nat → Nat)
    (dataCachePrepare : Nat → Option (List Nat)) (size : Nat) :
    Nat → Nat → Nat → List Nat → Bool → Nat → Option CheckUpcaseResult
  | 0, _, _, _, _, _ => none
  | fuel + 1, i, sector, upcase, skip, u =>
    if i < size / 2 then
      match checkUpcaseFetch dataCachePrepare i sector upcase with
      | none => some ⟨[], UpcaseEnd.readUpcaseFailed⟩
      | some (upcase, sector) =>
        let v := getLe16 (upcase.drop (2 * (i &&& 0xFF)))
        let r := checkUpcaseBody intBits up skip u v
        match checkUpcaseLoop intBits sizeBits up dataCachePrepare size fuel
            ((i + 1) % 2 ^ sizeBits) sector upcase r.1.1 r.1.2 with
        | none => none
        | some rest => some ⟨r.2 ++ rest.out, rest.status⟩
    else some ⟨[], UpcaseEnd.done⟩

/-- The search of the first 16 records of the root directory sector for the
`UpcaseTable` record: the start sector and the byte length of the table, both
`uint32_t`; `size` stays 0 when there is no such record.
`clusterStartSector` is the member function of that name. -/
def locateUpcase (clusterStartSector : Nat → Nat) (rootSector : Nat) (root : List Nat) :
    Nat × Nat :=
  match (List.range 16).find? (fun i => root.getD (32 * i) 0 == EXFAT_TYPE_UPCASE) with
  | none => (rootSector, 0)
  | some i =>
    (clusterStartSector (getLe32 (root.drop (32 * i + DirUpcase_firstCluster))) % 4294967296,
      getLe64 (root.drop (32 * i + DirUpcase_size)) % 4294967296)

/-- `void ExFatPartition::checkUpcase(print_t* pr)`.  `rootSector` is the value
of `clusterStartSector(m_rootDirectoryCluster)`. -/
def checkUpcase (intBits sizeBits : Nat) (up : Nat → Nat)
    (dataCachePrepare : Nat → Option (List Nat)) (clusterStartSector : Nat → Nat)
    (rootSector fuel : Nat) : Option CheckUpcaseResult :=
  match dataCachePrepare (rootSector % 4294967296) with
  | none => some ⟨[], UpcaseEnd.readRootFailed⟩
  | some root =>
    let loc := locateUpcase clusterStartSector (rootSector % 4294967296) root
    if loc.2 = 0 then some ⟨[], UpcaseEnd.upcaseNotFound⟩
    else checkUpcaseLoop intBits sizeBits up dataCachePrepare loc.2 fuel 0 loc.1 [] false 0

/-! ### The table as a sequence of 16-bit values -/

/-- The table value with index `i`: the little-endian 16-bit value at byte
offset `2 * (i % 256)` of the sector `sector + i / 256`. -/
def upcaseValueAt (dataCachePrepare : Nat → Option (List Nat)) (sector i : Nat) :
    Option Nat :=
  (dataCachePrepare ((sector + i / 256) % 4294967296)).map
    (fun cache => getLe16 (cache.drop (2 * (i % 256))))

/-- The table stored from `sector` on is the sequence of values `vals`. -/
def tableAt (dataCachePrepare : Nat → Option (List Nat)) (sector : Nat) (vals : List Nat) :
    Prop :=
  ∀ i, i < vals.length → upcaseValueAt dataCachePrepare sector i = some (vals.getD i 0)

instance (dataCachePrepare : Nat → Option (List Nat)) (sector : Nat) (vals : List Nat) :
    Decidable (tableAt dataCachePrepare sector vals) := by
  unfold tableAt; infer_instance

/-- The loop body run over a list of table values in order: the final `skip`
and `u`, and the output. -/
def decodeRun (intBits : Nat) (up : Nat → Nat) :
    Bool → Nat → List Nat → (Bool × Nat) × List UpcaseOut
  | skip, u, [] => ((skip, u), [])
  | skip, u, v :: vs =>
    let r := checkUpcaseBody intBits up skip u v
    let rest := decodeRun intBits up r.1.1 r.1.2 vs
    (rest.1, r.2 ++ rest.2)

/-- The values of `sector` and `upcase` at the head of iteration `i` of the
table loop. -/
def upcaseLoopInv (dataCachePrepare : Nat → Option (List Nat)) (sector0 i sector : Nat)
    (upcase : List Nat) : Prop :=
  sector = (sector0 + (i + 255) / 256) % 4294967296 ∧
    (i % 256 ≠ 0 → dataCachePrepare ((sector0 + i / 256) % 4294967296) = some upcase)

/-- Whether a printed line is a mismatch finding (the `skip` lines are not). -/
def UpcaseOut.isMismatch : UpcaseOut → Bool
  | UpcaseOut.skip _ _ => false
  | UpcaseOut.skipMismatch _ _ => true
  | UpcaseOut.mapMismatch _ _ _ => true

/-- The reference decoder, following the words of the specification: the
cursor starts at `cursor`; a value `0xFFFF` is an escape and the value `n` that
follows it is a skip-run length, after which the code points
`[cursor, cursor + n)` are checked for `toUpcase(cp) == cp` and the cursor
advances by `n`; any other value `v` is checked as `toUpcase(cursor) == v` and
the cursor advances by 1.  A finding is emitted for each check that fails. -/
def refDecode (up : Nat → Nat) : Nat → List Nat → List UpcaseOut
  | _, [] => []
  | cursor, v :: rest =>
    if v = 0xFFFF then
      match rest with
      | [] => []
      | n :: rest2 =>
        (List.range n).filterMap (fun k =>
          if toUpcase up (cursor + k) ≠ cursor + k then
            some (UpcaseOut.skipMismatch (cursor + k) (toUpcase up (cursor + k)))
          else none) ++ refDecode up (cursor + n) rest2
    else
      (if toUpcase up cursor ≠ v then [UpcaseOut.mapMismatch cursor (toUpcase up cursor) v]
       else []) ++ refDecode up (cursor + 1) rest

/-- The tables on which the reference decoder is defined by the format: no
skip-run length is `0xFFFF`, every mapping is for a code point below `0x10000`
and no skip run goes past `0x10000`. -/
def inRange : Nat → List Nat → Prop
  | _, [] => True
  | cursor, v :: rest =>
    if v = 0xFFFF then
      match rest with
      | [] => True
      | n :: rest2 => n ≠ 0xFFFF ∧ cursor + n ≤ 0x10000 ∧ inRange (cursor + n) rest2
    else cursor < 0x10000 ∧ inRange (cursor + 1) rest

/-- The kinds of finding the specification distinguishes for the upcase table. -/
inductive UpcaseFindingKind where
  | Mismatch
  | MalformedTable
  deriving DecidableEq, Repr

/-- The finding kind of a printed line: the two mismatch lines are `Mismatch`
findings, the `skip` line is no finding. -/
def upcaseFindingKind : UpcaseOut → Option UpcaseFindingKind
  | UpcaseOut.skip _ _ => none
  | UpcaseOut.skipMismatch _ _ => some UpcaseFindingKind.Mismatch
  | UpcaseOut.mapMismatch _ _ _ => some UpcaseFindingKind.Mismatch

/-! ## `ExFatPartition::printUpcase` -/

/-- What `printUpcase` prints in the table loop: `row` is the line break and the
index `printHex(pr, i)` printed at `i % 16 == 0`; `value` is the blank and the
table value `printHex(pr, uc)`. -/
inductive PrintUpcaseOut where
  | row (i : Nat)
  | value (uc : Nat)
  deriving DecidableEq, Repr

/-- How `printUpcase` ends: one of the three early `return`s with their message,
or the line `"checksum: "` with the final value of `checksum`. -/
inductive PrintUpcaseEnd where
  | readRootFailed
  | upcaseNotFound
  | readUpcaseFailed
  | checksum (sum : Nat)
  deriving DecidableEq, Repr

/-- The output of `printUpcase` and how it ended. -/
structure PrintUpcaseResult where
  out : List PrintUpcaseOut
  status : PrintUpcaseEnd
  deriving DecidableEq, Repr

/-- The external `uint32_t upcaseChecksum(uint16_t uc, uint32_t sum)`, given as
a parameter `f`: the arguments are converted to `uint16_t` and `uint32_t` at
the call and the result is a `uint32_t`. -/
def upcaseChecksum (f : Nat → Nat → Nat) (uc sum : Nat) : Nat :=
  f (uc % 65536) (sum % 4294967296) % 4294967296

/-- The loop `for (uint16_t i = 0; i < size/2; i++)` of `printUpcase`.  The
counter `i` is a `uint16_t` and wraps at `2^16`; `size / 2` is a `uint32_t`.
The sector fetch at `i % 256 == 0` is the statement of `checkUpcase`.  The loop
is run for at most `fuel` iterations, and `none` means that it has not ended by
then. -/
def printUpcaseLoop (f : Nat → Nat → Nat) (dataCachePrepare : Nat → Option (List Nat))
    (size : Nat) : Nat → Nat → Nat → List Nat → Nat → Option PrintUpcaseResult
  | 0, _, _, _, _ => none
  | fuel + 1, i, sector, upcase, checksum =>
    if i < size / 2 then
      match checkUpcaseFetch dataCachePrepare i sector upcase with
      | none => some ⟨[], PrintUpcaseEnd.readUpcaseFailed⟩
      | some (upcase, sector) =>
        let o1 := if i % 16 = 0 then [PrintUpcaseOut.row i] else []
        let uc := getLe16 (upcase.drop (2 * (i &&& 0xFF)))
        match printUpcaseLoop f dataCachePrepare size fuel ((i + 1) % 65536) sector upcase
            (upcaseChecksum f uc checksum) with
        | none => none
        | some rest => some ⟨o1 ++ PrintUpcaseOut.value uc :: rest.out, rest.status⟩
    else some ⟨[], PrintUpcaseEnd.checksum checksum⟩

/-- `void ExFatPartition::printUpcase(print_t* pr)`.  `rootSector` is the value
of `clusterStartSector(m_rootDirectoryCluster)`; the search for the
`UpcaseTable` record is the loop of `checkUpcase`. -/
def printUpcase (f : Nat → Nat → Nat) (dataCachePrepare : Nat → Option (List Nat))
    (clusterStartSector : Nat → Nat) (rootSector fuel : Nat) : Option PrintUpcaseResult :=
  match dataCachePrepare (rootSector % 4294967296) with
  | none => some ⟨[], PrintUpcaseEnd.readRootFailed⟩
  | some root =>
    let loc := locateUpcase clusterStartSector (rootSector % 4294967296) root
    if loc.2 = 0 then some ⟨[], PrintUpcaseEnd.upcaseNotFound⟩
    else printUpcaseLoop f dataCachePrepare loc.2 fuel 0 loc.1 [] 0

/-- The lines of the table loop of `printUpcase` for the values `vals`, the
first of which has the index `i`. -/
def upcaseRows : Nat → List Nat → List PrintUpcaseOut
  | _, [] => []
  | i, uc :: rest =>
    (if i % 16 = 0 then [PrintUpcaseOut.row i] else []) ++
      PrintUpcaseOut.value uc :: upcaseRows (i + 1) rest

/-- The table checksum: every raw table value folded once, in file order, into
the running checksum starting from `sum`. -/
def tableChecksum (f : Nat → Nat → Nat) (sum : Nat) (vals : List Nat) : Nat :=
  vals.foldl (fun c uc => upcaseChecksum f uc c) sum

/-! ## Sample data -/

/-- A case-folding function: ASCII lower-case letters go to upper case, every
other code unit to itself. -/
def asciiUpcase (u : Nat) : Nat := if 97 ≤ u ∧ u ≤ 122 then u - 32 else u

/-- A `File` record: `setCount = 2`, stored `setChecksum = 0x3BFE`. -/
def sampleFile : List Nat :=
  [0x85, 2, 0xFE, 0x3B, 0x20, 0, 0, 0, 0, 0, 0, 0, 0, 0, 0, 0,
   0, 0, 0, 0, 0, 0, 0, 0, 0, 0, 0, 0, 0, 0, 0, 0]

/-- A `StreamExtension` record: `nameLength = 2`, stored `nameHash = 0x2029`. -/
def sampleStream : List Nat :=
  [0xC0, 3, 0, 2, 0x29, 0x20, 0, 0, 5, 0, 0, 0, 0, 0, 0, 0,
   0, 0, 0, 0, 9, 0, 0, 0, 5, 0, 0, 0, 0, 0, 0, 0]

/-- A `FileName` record holding the name "Ab" followed by zero padding. -/
def sampleName : List Nat :=
  [0xC1, 0, 0x41, 0, 0x62, 0, 0, 0, 0, 0, 0, 0, 0, 0, 0, 0,
   0, 0, 0, 0, 0, 0, 0, 0, 0, 0, 0, 0, 0, 0, 0, 0]

/-- A record source whose sector 0 starts with the sample entry set; every other
sector fails to read. -/
def sampleCache (sector : Nat) : Option (List Nat) :=
  if sector = 0 then some (sampleFile ++ sampleStream ++ sampleName) else none

/-- The sample record source with the tag byte of the `FileName` record
replaced by `0x00`. -/
def sampleCacheTagChanged (sector : Nat) : Option (List Nat) :=
  if sector = 0 then some (sampleFile ++ sampleStream ++ sampleName.set 0 0x00) else none

/-- The sample record source with the byte at offset 4 of the `File` record
(the low byte of the attributes) replaced by `0x21`. -/
def sampleCacheByteChanged (sector : Nat) : Option (List Nat) :=
  if sector = 0 then some (sampleFile.set 4 0x21 ++ sampleStream ++ sampleName) else none

/-- The sample record source with the second name character `b` (0x62)
replaced by `B` (0x42); the stored name hash is unchanged. -/
def sampleCacheCaseChanged (sector : Nat) : Option (List Nat) :=
  if sector = 0 then some (sampleFile ++ sampleStream ++ sampleName.set 4 0x42) else none

/-- The sample record source with the second name character `b` (0x62)
replaced by `c` (0x63); the stored name hash is unchanged. -/
def sampleCacheNameChanged (sector : Nat) : Option (List Nat) :=
  if sector = 0 then some (sampleFile ++ sampleStream ++ sampleName.set 4 0x63) else none

/-- The sample record source with a third, non-zero code unit `c` (0x63) stored
in the name slot, beyond the declared name length 2. -/
def sampleCacheExtraUnit (sector : Nat) : Option (List Nat) :=
  if sector = 0 then some (sampleFile ++ sampleStream ++ sampleName.set 6 0x63) else none

/-- A root directory sector whose first record is an `UpcaseTable` record:
`firstCluster = 5`, `size = size` (below 256). -/
def sampleUpcaseRoot (size : Nat) : List Nat :=
  [0x82, 0, 0, 0, 0, 0, 0, 0, 0, 0, 0, 0, 0, 0, 0, 0,
   0, 0, 0, 0, 5, 0, 0, 0, size, 0, 0, 0, 0, 0, 0, 0]

/-- A record source for `checkUpcase`: sector 0 is the root directory sector,
sector 5 holds the bytes `table` of the upcase table; used with the identity
as `clusterStartSector`. -/
def sampleUpcaseCache (table : List Nat) (sector : Nat) : Option (List Nat) :=
  if sector = 0 then some (sampleUpcaseRoot table.length)
  else if sector = 5 then some table
  else none

/-- A root directory sector whose first record is an `UpcaseTable` record with
`firstCluster = 5` and `size = 131072`, the byte length of an uncompressed
table of 65536 values. -/
def sampleUpcaseRootFull : List Nat :=
  [0x82, 0, 0, 0, 0, 0, 0, 0, 0, 0, 0, 0, 0, 0, 0, 0,
   0, 0, 0, 0, 5, 0, 0, 0, 0x00, 0x00, 0x02, 0x00, 0, 0, 0, 0]

/-- A record source on which every sector read succeeds: sector 0 is the root
directory sector declaring a table of 131072 bytes, every other sector holds
512 zero bytes. -/
def sampleCacheFullTable (sector : Nat) : Option (List Nat) :=
  if sector = 0 then some sampleUpcaseRootFull else some (List.replicate 512 0)

/-! ## Theorems -/

set_option maxRecDepth 100000

theorem or_mod_two_pow_16 (w A B : Nat) (hw : 16 ≤ w) :
    ((A % 2 ^ w) ||| B) % 2 ^ 16 = (A ||| B) % 2 ^ 16 := by
  apply Nat.eq_of_testBit_eq
  intro i
  simp only [Nat.testBit_mod_two_pow, Nat.testBit_or]
  by_cases hi : i < 16
  · have : i < w := by omega
    simp [hi, this]
  · simp [hi]

/-- The C expression evaluated in `intBits ≥ 16` bits and truncated to
`uint16_t` is the 16-bit rotate-and-add. -/
theorem rotAdd_eq_checksumStep (w c b : Nat) (hw : 16 ≤ w) :
    rotAdd w c b = checksumStep c b := by
  have h16 : (65536:Nat) = 2 ^ 16 := by norm_num
  have hF : (0xFFFF : Nat) = 2 ^ 16 - 1 := by norm_num
  have e1 : rotAdd w c b = ((((c <<< 15) % 2 ^ w) ||| (c >>> 1)) % 2 ^ 16 + b) % 2 ^ 16 := by
    unfold rotAdd
    rw [h16, Nat.mod_mod_of_dvd _ (Nat.pow_dvd_pow 2 hw), Nat.mod_add_mod]
  have e2 : checksumStep c b = (((c <<< 15) ||| (c >>> 1)) % 2 ^ 16 + b) % 2 ^ 16 := by
    unfold checksumStep rotateRight16
    rw [hF, Nat.and_pow_two_sub_one_eq_mod, h16]
  rw [e1, e2, or_mod_two_pow_16 w _ _ hw]

theorem rotateRight16_eq (c : Nat) (hc : c < 65536) :
    rotateRight16 c = (c % 2) * 32768 + c / 2 := by
  unfold rotateRight16
  have hF : (0xFFFF : Nat) = 2 ^ 16 - 1 := by norm_num
  rw [hF, Nat.and_pow_two_sub_one_eq_mod, Nat.shiftLeft_eq, Nat.shiftRight_eq_div_pow]
  have h1 : c / 2 ^ 1 < 2 ^ 15 := by norm_num; omega
  rw [Nat.mul_comm, ← Nat.mul_add_lt_is_or h1]
  norm_num
  omega

theorem checksumStep_lt (c b : Nat) : checksumStep c b < 65536 := by
  unfold checksumStep; omega

theorem exFatDirChecksum_not_file (w : Nat) (dir : List Nat) (seed : Nat)
    (ht : dir.getD 0 0 ≠ EXFAT_TYPE_FILE) :
    exFatDirChecksum w dir seed = (recordBytes dir).foldl (rotAdd w) seed := by
  have hb : (dir.getD 0 0 == EXFAT_TYPE_FILE) = false := by simpa using ht
  unfold exFatDirChecksum
  rw [hb]
  simp [exFatDirChecksumLoop, recordBytes, List.range_succ]

theorem exFatDirChecksum_file (w : Nat) (dir : List Nat) (seed : Nat)
    (ht : dir.getD 0 0 = EXFAT_TYPE_FILE) :
    exFatDirChecksum w dir seed = (recordBytesNoChecksum dir).foldl (rotAdd w) seed := by
  have hb : (dir.getD 0 0 == EXFAT_TYPE_FILE) = true := by simpa using ht
  unfold exFatDirChecksum
  rw [hb]
  simp [exFatDirChecksumLoop, recordBytesNoChecksum, List.range_succ]

theorem recordBytes_eq_self (dir : List Nat) (hlen : dir.length = 32) :
    recordBytes dir = dir := by
  apply List.ext_getElem
  · simp [recordBytes, hlen]
  · intro i h1 h2
    simp [recordBytes, List.getElem?_eq_getElem h2]

theorem recordBytesNoChecksum_eq (dir : List Nat) (hlen : dir.length = 32) :
    recordBytesNoChecksum dir = dir.take 2 ++ dir.drop 4 := by
  have h := recordBytes_eq_self dir hlen
  conv_rhs => rw [← h]
  simp [recordBytes, recordBytesNoChecksum, List.range_succ]

theorem rotAdd_fun_eq (w : Nat) (hw : 16 ≤ w) : rotAdd w = checksumStep := by
  funext c b
  exact rotAdd_eq_checksumStep w c b hw

theorem exFatDirChecksum_fold_all (w : Nat) (dir : List Nat) (seed : Nat) (hw : 16 ≤ w)
    (hlen : dir.length = 32) (ht : dir.getD 0 0 ≠ EXFAT_TYPE_FILE) :
    exFatDirChecksum w dir seed = dir.foldl checksumStep seed := by
  rw [exFatDirChecksum_not_file w dir seed ht, rotAdd_fun_eq w hw, recordBytes_eq_self dir hlen]

theorem exFatDirChecksum_fold_file (w : Nat) (dir : List Nat) (seed : Nat) (hw : 16 ≤ w)
    (hlen : dir.length = 32) (ht : dir.getD 0 0 = EXFAT_TYPE_FILE) :
    exFatDirChecksum w dir seed = (dir.take 2 ++ dir.drop 4).foldl checksumStep seed := by
  rw [exFatDirChecksum_file w dir seed ht, rotAdd_fun_eq w hw,
    recordBytesNoChecksum_eq dir hlen]

/-- C1: for a 32-byte record whose tag byte is not the File tag, and every seed,
`exFatDirChecksum` is the left fold over all 32 bytes in offset order of
`c -> (rotate_right_16(c,1) + byte) mod 2^16`; the C expression evaluated in any
integer width of at least 16 bits and truncated to `uint16_t` agrees with the
16-bit rotate-and-add. -/
theorem exFatDirChecksum_eq_fold (intBits : Nat) (dir : List Nat) (seed : Nat)
    (hw : 16 ≤ intBits) (hlen : dir.length = 32)
    (ht : dir.getD 0 0 ≠ EXFAT_TYPE_FILE) :
    exFatDirChecksum intBits dir seed = dir.foldl checksumStep seed
      ∧ ∀ c b, rotAdd intBits c b = (rotateRight16 c + b) % 2 ^ 16 := by
  refine ⟨exFatDirChecksum_fold_all intBits dir seed hw hlen ht, fun c b => ?_⟩
  rw [rotAdd_eq_checksumStep intBits c b hw]
  rfl

theorem hashDirLoop_eq_fold (w : Nat) (up : Nat → Nat) (dir : List Nat) (hw : 16 ≤ w) :
    ∀ (fuel j h : Nat), j + fuel = 15 →
      hashDirLoop w up dir fuel (2 * j) h =
        (((List.range' j fuel).map
          (fun j => getLe16 (dir.drop (DirName_unicode + 2 * j)))).takeWhile
            (fun u => decide (u ≠ 0))).foldl (hashStep up) h := by
  intro fuel
  induction fuel with
  | zero => intro j h _; simp [hashDirLoop]
  | succ n ih =>
    intro j h hj
    have hlt : 2 * j < 30 := by omega
    have hmod : (2 * j + 2) % 256 = 2 * (j + 1) := by omega
    rw [hashDirLoop, if_pos hlt]
    simp only [List.range'_succ, List.map_cons, List.takeWhile_cons]
    by_cases hu : getLe16 (dir.drop (DirName_unicode + 2 * j)) = 0
    · simp [hu]
    · simp only [hu, if_false, ne_eq, not_false_eq_true, decide_True, List.foldl_cons]
      rw [hmod, ih (j + 1) _ (by omega)]
      simp [hashStep, hashStepFolded, rotAdd_eq_checksumStep w _ _ hw]

theorem hashDir_eq_fold (w : Nat) (up : Nat → Nat) (dir : List Nat) (seed : Nat)
    (hw : 16 ≤ w) :
    hashDir w up dir seed =
      ((nameUnits dir).takeWhile (fun u => decide (u ≠ 0))).foldl (hashStep up) seed := by
  have h := hashDirLoop_eq_fold w up dir hw 15 0 seed (by omega)
  simpa [hashDir, nameUnits, List.range_eq_range'] using h

theorem takeWhile_ne_zero_congr :
    ∀ (l m : List Nat) (k : Nat), l.length = m.length → k < l.length →
      l.getD k 0 = 0 → (∀ j, j ≤ k → m.getD j 0 = l.getD j 0) →
      m.takeWhile (fun u => decide (u ≠ 0)) = l.takeWhile (fun u => decide (u ≠ 0)) := by
  intro l
  induction l with
  | nil => intro m k _ hk; simp at hk
  | cons a l ih =>
    intro m k hlen hk hz hag
    cases m with
    | nil => simp at hlen
    | cons b m =>
      have hab : b = a := by simpa using hag 0 (Nat.zero_le _)
      subst hab
      cases k with
      | zero =>
        have : b = 0 := by simpa using hz
        simp [this]
      | succ k =>
        simp only [List.takeWhile_cons]
        have hrec := ih m k (by simpa using hlen) (by simpa using hk) (by simpa using hz)
          (fun j hj => by simpa using hag (j + 1) (by omega))
        rw [hrec]

/-- Witness of C1 at the sample `FileName` record, seed 0, 32-bit `int`. -/
theorem exFatDirChecksum_eq_fold_witness :
    exFatDirChecksum 32 sampleName 0 = sampleName.foldl checksumStep 0
      ∧ ∀ c b, rotAdd 32 c b = (rotateRight16 c + b) % 2 ^ 16 :=
  exFatDirChecksum_eq_fold 32 sampleName 0 (by decide) (by decide) (by decide)

/-- C2 as stated fails: on the sample `File` record the checksum is not the fold
over the bytes at offsets 0 and 4..31, and it changes with the byte at offset 1. -/
theorem exFatDirChecksum_file_skip123_counterexample :
    sampleFile.getD 0 0 = EXFAT_TYPE_FILE ∧ sampleFile.length = 32
      ∧ exFatDirChecksum 32 sampleFile 0
          ≠ (sampleFile.take 1 ++ sampleFile.drop 4).foldl checksumStep 0
      ∧ exFatDirChecksum 32 (sampleFile.set 1 3) 0 ≠ exFatDirChecksum 32 sampleFile 0 := by
  decide

/-- C2 (amended): for a 32-byte record whose tag is the File tag,
`exFatDirChecksum` excludes exactly the two bytes at offsets 2..3 (the stored
`setChecksum`): it is the rotate-and-add fold over the bytes at offsets 0, 1 and
4..31 and does not depend on the bytes at offsets 2 and 3; for any other tag it
is the fold over all 32 bytes. -/
theorem exFatDirChecksum_file_excludes_2_3 (intBits : Nat) (dir : List Nat) (seed : Nat)
    (hw : 16 ≤ intBits) (hlen : dir.length = 32) :
    (dir.getD 0 0 = EXFAT_TYPE_FILE →
        exFatDirChecksum intBits dir seed
            = (dir.take 2 ++ dir.drop 4).foldl checksumStep seed
          ∧ ∀ b2 b3, exFatDirChecksum intBits ((dir.set 2 b2).set 3 b3) seed
              = exFatDirChecksum intBits dir seed)
      ∧ (dir.getD 0 0 ≠ EXFAT_TYPE_FILE →
          exFatDirChecksum intBits dir seed = dir.foldl checksumStep seed) := by
  refine ⟨fun ht => ⟨exFatDirChecksum_fold_file intBits dir seed hw hlen ht,
    fun b2 b3 => ?_⟩, fun ht => exFatDirChecksum_fold_all intBits dir seed hw hlen ht⟩
  · have ht2 : ((dir.set 2 b2).set 3 b3).getD 0 0 = EXFAT_TYPE_FILE := by
      rw [← ht]; simp [List.getD_eq_getElem?_getD, List.getElem?_set]
    rw [exFatDirChecksum_file intBits _ seed ht2, exFatDirChecksum_file intBits dir seed ht]
    congr 1
    simp [recordBytesNoChecksum, List.getD_eq_getElem?_getD, List.getElem?_set]

/-- Witness of the amended C2 at the sample `File` record. -/
theorem exFatDirChecksum_file_excludes_2_3_witness :
    (sampleFile.getD 0 0 = EXFAT_TYPE_FILE →
        exFatDirChecksum 32 sampleFile 0
            = (sampleFile.take 2 ++ sampleFile.drop 4).foldl checksumStep 0
          ∧ ∀ b2 b3, exFatDirChecksum 32 ((sampleFile.set 2 b2).set 3 b3) 0
              = exFatDirChecksum 32 sampleFile 0)
      ∧ (sampleFile.getD 0 0 ≠ EXFAT_TYPE_FILE →
          exFatDirChecksum 32 sampleFile 0 = sampleFile.foldl checksumStep 0) :=
  exFatDirChecksum_file_excludes_2_3 32 sampleFile 0 (by decide) (by decide)

/-- C3: for every `FileName` record and seed, `hashDir` is the fold, over the
little-endian code units of the 15-unit name slot taken in order up to but
excluding the first zero unit, of: case-fold the unit, rotate-and-add its low
byte, then its high byte; a record that has the same units up to and including
a zero unit has the same hash, whatever follows the zero unit. -/
theorem hashDir_eq_fold_until_zero (intBits : Nat) (up : Nat → Nat) (dir : List Nat)
    (seed : Nat) (hw : 16 ≤ intBits) :
    hashDir intBits up dir seed =
        ((nameUnits dir).takeWhile (fun u => decide (u ≠ 0))).foldl
          (fun h u =>
            checksumStep (checksumStep h (toUpcase up u &&& 0xFF)) (toUpcase up u >>> 8))
          seed
      ∧ ∀ (other : List Nat) (k : Nat), k < 15 → (nameUnits dir).getD k 0 = 0 →
          (∀ j, j ≤ k → (nameUnits other).getD j 0 = (nameUnits dir).getD j 0) →
          hashDir intBits up other seed = hashDir intBits up dir seed := by
  refine ⟨hashDir_eq_fold intBits up dir seed hw, fun other k hk hz hag => ?_⟩
  rw [hashDir_eq_fold intBits up other seed hw, hashDir_eq_fold intBits up dir seed hw,
    takeWhile_ne_zero_congr (nameUnits dir) (nameUnits other) k (by simp [nameUnits])
      (by simpa [nameUnits] using hk) hz hag]

/-- Witness of C3 at the sample `FileName` record with the ASCII folding. -/
theorem hashDir_eq_fold_until_zero_witness :
    hashDir 32 asciiUpcase sampleName 0 =
        ((nameUnits sampleName).takeWhile (fun u => decide (u ≠ 0))).foldl
          (fun h u =>
            checksumStep (checksumStep h (toUpcase asciiUpcase u &&& 0xFF))
              (toUpcase asciiUpcase u >>> 8))
          0
      ∧ ∀ (other : List Nat) (k : Nat), k < 15 → (nameUnits sampleName).getD k 0 = 0 →
          (∀ j, j ≤ k → (nameUnits other).getD j 0 = (nameUnits sampleName).getD j 0) →
          hashDir 32 asciiUpcase other 0 = hashDir 32 asciiUpcase sampleName 0 :=
  hashDir_eq_fold_until_zero 32 asciiUpcase sampleName 0 (by decide)

/-! ### Records are read through their first 32 bytes only -/

theorem getD_take_of_lt (l : List Nat) (n j : Nat) (h : j < n) :
    (l.take n).getD j 0 = l.getD j 0 := by
  simp [List.getD_eq_getElem?_getD, List.getElem?_take, h]

theorem getD_drop_add (l : List Nat) (k j : Nat) :
    (l.drop k).getD j 0 = l.getD (k + j) 0 := by
  simp [List.getD_eq_getElem?_getD, List.getElem?_drop]

theorem getLe16_drop_take (l : List Nat) (k : Nat) (h : k + 2 ≤ 32) :
    getLe16 ((l.take 32).drop k) = getLe16 (l.drop k) := by
  unfold getLe16
  rw [getD_drop_add, getD_drop_add, getD_drop_add, getD_drop_add,
    getD_take_of_lt l 32 (k + 0) (by omega), getD_take_of_lt l 32 (k + 1) (by omega)]

theorem recordBytes_take (l : List Nat) : recordBytes (l.take 32) = recordBytes l := by
  unfold recordBytes
  apply List.map_congr_left
  intro i hi
  exact getD_take_of_lt l 32 i (by simpa using hi)

theorem recordBytesNoChecksum_take (l : List Nat) :
    recordBytesNoChecksum (l.take 32) = recordBytesNoChecksum l := by
  unfold recordBytesNoChecksum
  rw [getD_take_of_lt l 32 0 (by omega), getD_take_of_lt l 32 1 (by omega)]
  congr 1
  apply List.map_congr_left
  intro i hi
  exact getD_take_of_lt l 32 (i + 4) (by have := List.mem_range.mp hi; omega)

theorem exFatDirChecksum_take (w : Nat) (l : List Nat) (c : Nat) :
    exFatDirChecksum w (l.take 32) c = exFatDirChecksum w l c := by
  have h0 : (l.take 32).getD 0 0 = l.getD 0 0 := getD_take_of_lt l 32 0 (by omega)
  by_cases ht : l.getD 0 0 = EXFAT_TYPE_FILE
  · rw [exFatDirChecksum_file w _ c (h0.trans ht), exFatDirChecksum_file w l c ht,
      recordBytesNoChecksum_take]
  · rw [exFatDirChecksum_not_file w _ c (by rw [h0]; exact ht),
      exFatDirChecksum_not_file w l c ht, recordBytes_take]

theorem hashDirLoop_take (w : Nat) (up : Nat → Nat) (l : List Nat) :
    ∀ (fuel i h : Nat), i % 2 = 0 →
      hashDirLoop w up (l.take 32) fuel i h = hashDirLoop w up l fuel i h := by
  intro fuel
  induction fuel with
  | zero => intro i h _; simp [hashDirLoop]
  | succ n ih =>
    intro i h hev
    rw [hashDirLoop, hashDirLoop]
    by_cases hi : i < 30
    · have hk : DirName_unicode + i + 2 ≤ 32 := by
        have : DirName_unicode = 2 := rfl
        omega
      have e : getLe16 ((l.take 32).drop (DirName_unicode + i))
          = getLe16 (l.drop (DirName_unicode + i)) :=
        getLe16_drop_take l (DirName_unicode + i) hk
      have hev2 : (i + 2) % 256 % 2 = 0 := by omega
      simp only [if_pos hi, e, ih _ _ hev2]
    · simp only [if_neg hi]

theorem hashDir_take (w : Nat) (up : Nat → Nat) (l : List Nat) (h : Nat) :
    hashDir w up (l.take 32) h = hashDir w up l h :=
  hashDirLoop_take w up l 15 0 h rfl

theorem printDirSwitch_take (w : Nat) (up : Nat → Nat) (v : PrintDirVars) (l : List Nat) :
    printDirSwitch w up v (l.take 32) = printDirSwitch w up v l := by
  unfold printDirSwitch
  simp only [getD_take_of_lt l 32 0 (by omega), exFatDirChecksum_take, hashDir_take,
    List.take_take, Nat.min_self,
    getD_take_of_lt l 32 DirFile_setCount (by unfold DirFile_setCount; omega),
    getD_take_of_lt l 32 DirStream_nameLength (by unfold DirStream_nameLength; omega),
    getLe16_drop_take l DirFile_setChecksum (by unfold DirFile_setChecksum; omega),
    getLe16_drop_take l DirStream_nameHash (by unfold DirStream_nameHash; omega)]

/-! ### The loop of `printDir` runs the `switch` over the record stream -/

theorem runRecords_append (w : Nat) (up : Nat → Nat) :
    ∀ (a b : List (List Nat)) (v : PrintDirVars),
      runRecords w up v (a ++ b) =
        ((runRecords w up (runRecords w up v a).1 b).1,
          (runRecords w up v a).2 ++ (runRecords w up (runRecords w up v a).1 b).2) := by
  intro a
  induction a with
  | nil => intro b v; simp [runRecords]
  | cons d ds ih => intro b v; simp [runRecords, ih]

theorem runRecords_length (w : Nat) (up : Nat → Nat) :
    ∀ (a : List (List Nat)) (v : PrintDirVars), (runRecords w up v a).2.length = a.length := by
  intro a
  induction a with
  | nil => intro v; simp [runRecords]
  | cons d ds ih => intro v; simp [runRecords, ih]

theorem printDirFetch_eq (cache : Nat → Option (List Nat))
    (root iDir sector : Nat) (dir : List Nat) (d : List Nat)
    (hinv : loopInv cache root iDir sector dir)
    (hd : dirAt cache root iDir = some d) :
    ∃ sector2 dir2, loopInv cache root (iDir + 1) sector2 dir2 ∧ dir2.take 32 = d ∧
      printDirFetch cache iDir sector dir = some (dir2, sector2) := by
  obtain ⟨hsec, hdir⟩ := hinv
  unfold dirAt at hd
  cases hc : cache ((root + iDir / 16) % 4294967296) with
  | none => rw [hc] at hd; simp at hd
  | some c =>
    rw [hc] at hd
    simp only [Option.map_some', Option.some.injEq] at hd
    refine ⟨(root + (iDir + 16) / 16) % 4294967296, c.drop (32 * (iDir % 16)), ⟨?_, ?_⟩, hd, ?_⟩
    · omega
    · intro h1
      refine ⟨c, ?_, ?_⟩
      · have : (iDir + 1) / 16 = iDir / 16 := by omega
        rw [this, hc]
      · have : (iDir + 1) % 16 - 1 = iDir % 16 := by omega
        rw [this]
    · unfold printDirFetch
      by_cases h0 : iDir % 16 = 0
      · have hs : sector = (root + iDir / 16) % 4294967296 := by rw [hsec]; omega
        rw [if_pos h0, hs, hc, h0]
        simp only [Nat.mul_zero, List.drop_zero, Option.some.injEq, Prod.mk.injEq, true_and]
        omega
      · obtain ⟨c2, hc2, hdir2⟩ := hdir h0
        rw [hc] at hc2
        have hcc : c = c2 := by simpa using hc2
        subst hcc
        rw [if_neg h0, hdir2, List.drop_drop]
        have e1 : 32 * (iDir % 16 - 1) + 32 = 32 * (iDir % 16) := by omega
        have e2 : sector = (root + (iDir + 16) / 16) % 4294967296 := by rw [hsec]; omega
        rw [e1, ← e2]

theorem printDirLoop_step (w : Nat) (up : Nat → Nat) (cache : Nat → Option (List Nat))
    (root left iDir sector : Nat) (dir : List Nat) (v : PrintDirVars) (d : List Nat)
    (hinv : loopInv cache root iDir sector dir)
    (hd : dirAt cache root iDir = some d) (hne : d.getD 0 0 ≠ EXFAT_TYPE_END_DIR) :
    ∃ sector2 dir2, loopInv cache root (iDir + 1) sector2 dir2 ∧
      printDirLoop w up cache (left + 1) iDir sector dir v =
        ⟨(printDirSwitch w up v d).2 ::
            (printDirLoop w up cache left (iDir + 1) sector2 dir2
              (printDirSwitch w up v d).1).out,
          (printDirLoop w up cache left (iDir + 1) sector2 dir2
              (printDirSwitch w up v d).1).ret⟩ := by
  obtain ⟨s2, d2, hinv2, htake, hfetch⟩ := printDirFetch_eq cache root iDir sector dir d hinv hd
  have htag : d2.getD 0 0 ≠ EXFAT_TYPE_END_DIR := by
    rw [← htake, getD_take_of_lt _ 32 0 (by omega)] at hne
    exact hne
  refine ⟨s2, d2, hinv2, ?_⟩
  rw [printDirLoop, hfetch]
  simp only [if_neg htag]
  rw [← htake, printDirSwitch_take]

theorem printDirLoop_run (w : Nat) (up : Nat → Nat) (cache : Nat → Option (List Nat))
    (root : Nat) :
    ∀ (m left iDir sector : Nat) (dir : List Nat) (v : PrintDirVars),
      loopInv cache root iDir sector dir →
      (∀ j, iDir ≤ j → j < iDir + m →
        ∃ d, dirAt cache root j = some d ∧ d.getD 0 0 ≠ EXFAT_TYPE_END_DIR) →
      ∃ sector2 dir2, loopInv cache root (iDir + m) sector2 dir2 ∧
        printDirLoop w up cache (left + m) iDir sector dir v =
          ⟨(runRecords w up v (streamRecords cache root iDir m)).2 ++
              (printDirLoop w up cache left (iDir + m) sector2 dir2
                (runRecords w up v (streamRecords cache root iDir m)).1).out,
            (printDirLoop w up cache left (iDir + m) sector2 dir2
                (runRecords w up v (streamRecords cache root iDir m)).1).ret⟩ := by
  intro m
  induction m with
  | zero =>
    intro left iDir sector dir v hinv _
    exact ⟨sector, dir, hinv, by simp [streamRecords, runRecords]⟩
  | succ m ih =>
    intro left iDir sector dir v hinv hall
    obtain ⟨d, hd, hne⟩ := hall iDir (Nat.le_refl _) (by omega)
    obtain ⟨s1, d1, hinv1, hstep⟩ :=
      printDirLoop_step w up cache root (left + m) iDir sector dir v d hinv hd hne
    obtain ⟨s2, d2, hinv2, hrun⟩ :=
      ih left (iDir + 1) s1 d1 (printDirSwitch w up v d).1 hinv1
        (fun j h1 h2 => hall j (by omega) (by omega))
    refine ⟨s2, d2, by rw [show iDir + (m + 1) = iDir + 1 + m by omega]; exact hinv2, ?_⟩
    rw [show left + (m + 1) = left + m + 1 by omega, hstep, hrun]
    have hs : streamRecords cache root iDir (m + 1)
        = d :: streamRecords cache root (iDir + 1) m := by
      simp [streamRecords, List.range'_succ, hd]
    rw [hs, show iDir + (m + 1) = iDir + 1 + m by omega]
    simp [runRecords]

theorem dirAt_mod (cache : Nat → Option (List Nat)) (root j : Nat) :
    dirAt cache (root % 4294967296) j = dirAt cache root j := by
  unfold dirAt
  rw [Nat.mod_add_mod]

theorem streamRecords_mod (cache : Nat → Option (List Nat)) (root i m : Nat) :
    streamRecords cache (root % 4294967296) i m = streamRecords cache root i m := by
  unfold streamRecords
  simp only [dirAt_mod]

theorem loopInv_init (cache : Nat → Option (List Nat)) (root : Nat) :
    loopInv cache (root % 4294967296) 0 (root % 4294967296) [] := by
  refine ⟨by omega, fun h => absurd rfl h⟩

/-- The output of `printDir` starts with the output of the `switch` run over
any readable, `EndOfDirectory`-free initial part of the stream. -/
theorem printDir_run (w : Nat) (up : Nat → Nat) (cache : Nat → Option (List Nat))
    (root shift n : Nat) (hn : n ≤ nDirOf shift) (hr : readableUpTo cache root n) :
    ∃ rest : PrintDirResult, printDir w up cache root shift =
      ⟨(runRecords w up PrintDirVars.init (streamRecords cache root 0 n)).2 ++ rest.out,
        rest.ret⟩ := by
  obtain ⟨k, hk⟩ : ∃ k, nDirOf shift = k + n := ⟨nDirOf shift - n, by omega⟩
  obtain ⟨s2, d2, _, hrun⟩ :=
    printDirLoop_run w up cache (root % 4294967296) n k 0
      (root % 4294967296) [] PrintDirVars.init (loopInv_init cache root)
      (fun j _ h2 => by rw [dirAt_mod]; exact hr j (by omega))
  unfold printDir
  rw [hk, hrun, streamRecords_mod]
  exact ⟨_, rfl⟩

theorem printDirSwitch_file (w : Nat) (up : Nat → Nat) (v : PrintDirVars) (d : List Nat)
    (ht : d.getD 0 0 = EXFAT_TYPE_FILE) :
    printDirSwitch w up v d =
      (⟨v.calcHash, v.nameHash, storedSetChecksum d, exFatDirChecksum w d 0, v.nameLength,
          d.getD DirFile_setCount 0⟩,
        [DirOut.dirFile (d.take 32)]) := by
  unfold printDirSwitch
  simp only [ht]
  simp [EXFAT_TYPE_FILE, EXFAT_TYPE_BITMAP, EXFAT_TYPE_UPCASE, EXFAT_TYPE_LABEL,
    storedSetChecksum]

theorem printDirSwitch_stream (w : Nat) (up : Nat → Nat) (v : PrintDirVars) (d : List Nat)
    (ht : d.getD 0 0 = EXFAT_TYPE_STREAM) :
    printDirSwitch w up v d =
      (⟨0, storedNameHash d, v.setChecksum, exFatDirChecksum w d v.calcChecksum,
          d.getD DirStream_nameLength 0, (v.setCount + 255) % 256⟩,
        [DirOut.dirStream (d.take 32)]) := by
  unfold printDirSwitch
  simp only [ht]
  simp [EXFAT_TYPE_FILE, EXFAT_TYPE_BITMAP, EXFAT_TYPE_UPCASE, EXFAT_TYPE_LABEL,
    EXFAT_TYPE_STREAM, storedNameHash]

theorem printDirSwitch_name (w : Nat) (up : Nat → Nat) (v : PrintDirVars) (d : List Nat)
    (ht : d.getD 0 0 = EXFAT_TYPE_NAME) :
    printDirSwitch w up v d =
      (⟨hashDir w up d v.calcHash, v.nameHash, v.setChecksum,
          exFatDirChecksum w d v.calcChecksum,
          (v.nameLength + 256 - (if v.nameLength > 15 then 15 else v.nameLength)) % 256,
          (v.setCount + 255) % 256⟩,
        DirOut.dirName (d.take 32) ::
          (if (v.nameLength + 256 - (if v.nameLength > 15 then 15 else v.nameLength)) % 256 = 0
              ∨ (v.setCount + 255) % 256 = 0 then
            [DirOut.setChecksum v.setChecksum
                (relOf v.setChecksum (exFatDirChecksum w d v.calcChecksum))
                (exFatDirChecksum w d v.calcChecksum),
              DirOut.nameHash v.nameHash (relOf v.nameHash (hashDir w up d v.calcHash))
                (hashDir w up d v.calcHash)]
          else [])) := by
  unfold printDirSwitch
  simp only [ht]
  simp [EXFAT_TYPE_FILE, EXFAT_TYPE_BITMAP, EXFAT_TYPE_UPCASE, EXFAT_TYPE_LABEL,
    EXFAT_TYPE_STREAM, EXFAT_TYPE_NAME]

theorem runRecords_getD (w : Nat) (up : Nat → Nat) :
    ∀ (recs : List (List Nat)) (v : PrintDirVars) (k : Nat), k < recs.length →
      (runRecords w up v recs).2.getD k [] =
        (printDirSwitch w up (runRecords w up v (recs.take k)).1 (recs.getD k [])).2 := by
  intro recs
  induction recs with
  | nil => intro v k hk; simp at hk
  | cons d ds ih =>
    intro v k hk
    cases k with
    | zero => simp [runRecords]
    | succ k =>
      have := ih (printDirSwitch w up v d).1 k (by simpa using hk)
      simpa [runRecords] using this

/-- The variables after a run of `FileName` records. -/
theorem runRecords_names (w : Nat) (up : Nat → Nat) :
    ∀ (names : List (List Nat)) (v : PrintDirVars),
      (∀ d ∈ names, d.getD 0 0 = EXFAT_TYPE_NAME) → v.nameLength < 256 →
      v.setCount < 256 →
      (runRecords w up v names).1 =
        ⟨names.foldl (fun h d => hashDir w up d h) v.calcHash, v.nameHash, v.setChecksum,
          names.foldl (fun c d => exFatDirChecksum w d c) v.calcChecksum,
          v.nameLength - 15 * names.length, (v.setCount + 255 * names.length) % 256⟩ := by
  intro names
  induction names with
  | nil =>
    intro v _ _ hS
    cases v
    simp only [runRecords, List.foldl_nil, List.length_nil, Nat.mul_zero, Nat.sub_zero,
      Nat.add_zero, PrintDirVars.mk.injEq, true_and]
    simp only at hS
    omega
  | cons d ds ih =>
    intro v hall hL hS
    have ht : d.getD 0 0 = EXFAT_TYPE_NAME := hall d (by simp)
    rw [runRecords]
    simp only [printDirSwitch_name w up v d ht]
    rw [ih _ (fun x hx => hall x (by simp [hx])) (by simp only; omega) (by simp only; omega)]
    simp only [List.foldl_cons, List.length_cons, PrintDirVars.mk.injEq, true_and]
    refine ⟨?_, ?_⟩
    · split <;> omega
    · omega

theorem getD_mem_of_lt (recs : List (List Nat)) (k : Nat) (hk : k < recs.length) :
    recs.getD k [] ∈ recs := by
  rw [List.getD_eq_getElem _ _ hk]
  exact List.getElem_mem hk

theorem streamRecords_eq_of_recordsAt (cache : Nat → Option (List Nat)) (root p : Nat)
    (recs : List (List Nat)) (h : recordsAt cache root p recs) :
    streamRecords cache root p recs.length = recs := by
  apply List.ext_getElem
  · simp [streamRecords]
  · intro k h1 h2
    have := h k h2
    simp [streamRecords, this, List.getElem?_eq_getElem h2]

theorem streamRecords_add (cache : Nat → Option (List Nat)) (root p m : Nat) :
    streamRecords cache root 0 (p + m)
      = streamRecords cache root 0 p ++ streamRecords cache root p m := by
  unfold streamRecords
  rw [← List.map_append]
  congr 1
  have := List.range'_append 0 p m 1
  rw [Nat.add_comm m p] at this
  simpa using this.symm

/-- The output of `printDir` for records found at indices `p ..` of a readable
stream is the output of the `switch` run over them, started from the variables
left by the records before them. -/
theorem printDir_blocks (w : Nat) (up : Nat → Nat) (cache : Nat → Option (List Nat))
    (root shift p : Nat) (recs : List (List Nat))
    (hn : p + recs.length ≤ nDirOf shift) (hr : readableUpTo cache root p)
    (hrecs : recordsAt cache root p recs)
    (hne : ∀ d ∈ recs, d.getD 0 0 ≠ EXFAT_TYPE_END_DIR) :
    ∃ v : PrintDirVars, ∀ k, k < recs.length →
      blockAt (printDir w up cache root shift) (p + k) = (runRecords w up v recs).2.getD k [] := by
  have hall : readableUpTo cache root (p + recs.length) := by
    intro j hj
    by_cases hjp : j < p
    · exact hr j hjp
    · have hk : j - p < recs.length := by omega
      refine ⟨recs.getD (j - p) [], ?_, hne _ (getD_mem_of_lt recs _ hk)⟩
      have := hrecs (j - p) hk
      rwa [show p + (j - p) = j by omega] at this
  obtain ⟨rest, hrun⟩ := printDir_run w up cache root shift (p + recs.length) hn hall
  refine ⟨(runRecords w up PrintDirVars.init (streamRecords cache root 0 p)).1, fun k hk => ?_⟩
  unfold blockAt
  rw [hrun, streamRecords_add, streamRecords_eq_of_recordsAt cache root p recs hrecs,
    runRecords_append]
  simp only
  have hlen1 : (runRecords w up PrintDirVars.init (streamRecords cache root 0 p)).2.length = p := by
    rw [runRecords_length]; simp [streamRecords]
  rw [List.append_assoc, List.getD_append_right _ _ _ _ (by omega), hlen1,
    List.getD_append _ _ _ _ (by rw [runRecords_length]; omega)]
  congr 1
  omega

theorem foldl_take_succ {α β : Type} (f : β → α → β) (l : List α) (dflt : α) (k : Nat) (b : β)
    (hk : k < l.length) :
    (l.take (k + 1)).foldl f b = f ((l.take k).foldl f b) (l.getD k dflt) := by
  rw [List.take_succ, List.foldl_append, List.getD_eq_getElem _ _ hk,
    List.getElem?_eq_getElem hk]
  simp

/-- What `printDir` prints at the `k`-th `FileName` record of a `File`,
`StreamExtension`, `FileName`.. sequence: the comparison appears exactly when
the remaining name length or the remaining `setCount` has reached 0. -/
theorem runRecords_set_name_block (w : Nat) (up : Nat → Nat) (v : PrintDirVars)
    (file stream : List Nat) (names : List (List Nat)) (k : Nat)
    (hf : file.getD 0 0 = EXFAT_TYPE_FILE) (hs : stream.getD 0 0 = EXFAT_TYPE_STREAM)
    (hn : ∀ d ∈ names, d.getD 0 0 = EXFAT_TYPE_NAME)
    (hL : stream.getD DirStream_nameLength 0 < 256) (hk : k < names.length) :
    (runRecords w up v (file :: stream :: names)).2.getD (k + 2) [] =
      DirOut.dirName ((names.getD k []).take 32) ::
        (if stream.getD DirStream_nameLength 0 ≤ 15 * (k + 1)
            ∨ (file.getD DirFile_setCount 0 + 255 * (k + 2)) % 256 = 0 then
          comparison (storedSetChecksum file) (checksumThrough w file stream names (k + 1))
            (storedNameHash stream) (hashThrough w up names (k + 1))
        else []) := by
  rw [runRecords_getD w up _ v (k + 2) (by simp; omega)]
  have htk : ∀ d ∈ names.take k, d.getD 0 0 = EXFAT_TYPE_NAME :=
    fun d hd => hn d (List.mem_of_mem_take hd)
  have hst : (runRecords w up v ((file :: stream :: names).take (k + 2))).1 =
      ⟨hashThrough w up names k, storedNameHash stream, storedSetChecksum file,
        checksumThrough w file stream names k,
        stream.getD DirStream_nameLength 0 - 15 * k,
        (file.getD DirFile_setCount 0 + 255 + 255 * k) % 256⟩ := by
    simp only [List.take_succ_cons, runRecords, printDirSwitch_file w up v file hf,
      printDirSwitch_stream w up _ stream hs]
    rw [runRecords_names w up (names.take k) _ htk (by simpa using hL)
      (by simp only; omega)]
    have hlen : (names.take k).length = k := by simp; omega
    simp only [hlen, hashThrough, checksumThrough, PrintDirVars.mk.injEq, true_and]
    omega
  have hkn : (names.getD k []).getD 0 0 = EXFAT_TYPE_NAME := hn _ (getD_mem_of_lt names k hk)
  rw [hst, List.getD_cons_succ, List.getD_cons_succ, printDirSwitch_name w up _ _ hkn]
  simp only [comparison, checksumThrough, hashThrough,
    foldl_take_succ (fun c d => exFatDirChecksum w d c) names [] k _ hk,
    foldl_take_succ (fun h d => hashDir w up d h) names [] k _ hk]
  congr 1
  have hc : ((stream.getD DirStream_nameLength 0 - 15 * k + 256 -
        (if stream.getD DirStream_nameLength 0 - 15 * k > 15 then 15
          else stream.getD DirStream_nameLength 0 - 15 * k)) % 256 = 0
      ∨ ((file.getD DirFile_setCount 0 + 255 + 255 * k) % 256 + 255) % 256 = 0)
      ↔ (stream.getD DirStream_nameLength 0 ≤ 15 * (k + 1)
        ∨ (file.getD DirFile_setCount 0 + 255 * (k + 2)) % 256 = 0) := by
    split <;> omega
  simp only [hc]

/-! ### Checksum and name hash of a well-formed set -/

theorem foldl_exFatDirChecksum_eq (w : Nat) (hw : 16 ≤ w) :
    ∀ (names : List (List Nat)) (c : Nat),
      (∀ d ∈ names, d.length = 32 ∧ d.getD 0 0 ≠ EXFAT_TYPE_FILE) →
      names.foldl (fun c d => exFatDirChecksum w d c) c = names.flatten.foldl checksumStep c := by
  intro names
  induction names with
  | nil => intro c _; simp
  | cons d ds ih =>
    intro c hall
    obtain ⟨hlen, ht⟩ := hall d (by simp)
    rw [List.foldl_cons, List.flatten_cons, List.foldl_append,
      exFatDirChecksum_fold_all w d c hw hlen ht]
    exact ih _ (fun x hx => hall x (by simp [hx]))

theorem checksumThrough_eq_setChecksumOf (w : Nat) (hw : 16 ≤ w) (file stream : List Nat)
    (names : List (List Nat)) (hfl : file.length = 32) (hf : file.getD 0 0 = EXFAT_TYPE_FILE)
    (hsl : stream.length = 32) (hs : stream.getD 0 0 ≠ EXFAT_TYPE_FILE)
    (hn : ∀ d ∈ names, d.length = 32 ∧ d.getD 0 0 ≠ EXFAT_TYPE_FILE) :
    checksumThrough w file stream names names.length = setChecksumOf file stream names := by
  unfold checksumThrough setChecksumOf
  rw [List.take_length, foldl_exFatDirChecksum_eq w hw names _ hn,
    exFatDirChecksum_fold_all w stream _ hw hsl hs,
    exFatDirChecksum_fold_file w file 0 hw hfl hf]
  simp [List.foldl_append]

theorem takeWhile_append_zeros (n : Nat) :
    ∀ (l : List Nat), (∀ u ∈ l, u ≠ 0) →
      (l ++ List.replicate n 0).takeWhile (fun u => decide (u ≠ 0)) = l := by
  intro l
  induction l with
  | nil =>
    intro _
    cases n with
    | zero => simp
    | succ n => simp [List.replicate_succ]
  | cons a l ih =>
    intro h
    have ha : a ≠ 0 := h a (by simp)
    have hrec := ih (fun u hu => h u (by simp [hu]))
    simp only [List.cons_append, List.takeWhile_cons, ha, ne_eq, not_false_eq_true,
      decide_True, if_true, hrec]

theorem takeWhile_padUnits (l : List Nat) (h : ∀ u ∈ l, u ≠ 0) :
    (padUnits l).takeWhile (fun u => decide (u ≠ 0)) = l :=
  takeWhile_append_zeros _ l h

theorem foldl_hashDir_eq (w : Nat) (up : Nat → Nat) (hw : 16 ≤ w) :
    ∀ (names : List (List Nat)) (name : List Nat) (h : Nat),
      (∀ k, k < names.length →
        nameUnits (names.getD k []) = padUnits ((name.drop (15 * k)).take 15)) →
      (∀ u ∈ name, u ≠ 0) → name.length ≤ 15 * names.length →
      names.foldl (fun h d => hashDir w up d h) h = name.foldl (hashStep up) h := by
  intro names
  induction names with
  | nil =>
    intro name h _ _ hlen
    have : name = [] := List.eq_nil_of_length_eq_zero (by simpa using hlen)
    simp [this]
  | cons d ds ih =>
    intro name h hu hnz hlen
    have h0 := hu 0 (by simp)
    simp only [List.getD_cons_zero, Nat.mul_zero, List.drop_zero] at h0
    rw [List.foldl_cons, hashDir_eq_fold w up d h hw, h0,
      takeWhile_padUnits _ (fun u hu => hnz u (List.mem_of_mem_take hu))]
    rw [ih (name.drop 15) _ (fun k hk => by
        have := hu (k + 1) (by simpa using hk)
        simpa [List.drop_drop, Nat.mul_add, Nat.add_comm] using this)
      (fun u hu => hnz u (List.mem_of_mem_drop hu))
      (by simp at hlen ⊢; omega)]
    rw [← List.foldl_append, List.take_append_drop]

theorem flatMap_range_eq_nil {α : Type} (f : Nat → List α) :
    ∀ n, (∀ k, k < n → f k = []) → (List.range n).flatMap f = [] := by
  intro n
  induction n with
  | zero => intro _; simp
  | succ n ih =>
    intro h
    rw [List.range_succ, List.flatMap_append, ih (fun k hk => h k (by omega))]
    simp [h n (by omega)]

theorem flatMap_range_last {α : Type} (f : Nat → List α) (n : Nat)
    (h : ∀ k, k < n → f k = []) : (List.range (n + 1)).flatMap f = f n := by
  rw [List.range_succ, List.flatMap_append, flatMap_range_eq_nil f n h]
  simp

theorem relOf_self (x : Nat) : relOf x x = Rel.eq := by simp [relOf]

theorem relOf_of_ne (x y : Nat) (h : x ≠ y) : relOf x y = Rel.ne := by simp [relOf, h]

/-! ## Entry sets scanned by `printDir` -/

theorem blockFindings_dirName_comparison (x : List Nat) (s c sh h : Nat) :
    blockFindings (DirOut.dirName x :: comparison s c sh h)
      = if relOf s c = Rel.eq ∧ relOf sh h = Rel.eq then [FindingKind.Ok]
        else (if relOf s c = Rel.ne then [FindingKind.ChecksumMismatch] else []) ++
          (if relOf sh h = Rel.ne then [FindingKind.HashMismatch] else []) := by
  simp [blockFindings, comparison]

/-- The output of `printDir` for a well-formed entry set found in the stream:
field dumps only before the last `FileName` record, and there the comparison
of the stored checksum and name hash with the computed ones. -/
theorem printDir_wellFormedSet_blocks (intBits : Nat) (up : Nat → Nat)
    (dataCachePrepare : Nat → Option (List Nat)) (rootSector shift p : Nat)
    (file stream : List Nat) (names : List (List Nat)) (name : List Nat)
    (hw : 16 ≤ intBits) (hwf : wellFormedSet file stream names name)
    (hn : p + (names.length + 2) ≤ nDirOf shift)
    (hr : readableUpTo dataCachePrepare rootSector p)
    (hrecs : recordsAt dataCachePrepare rootSector p (file :: stream :: names)) :
    blockAt (printDir intBits up dataCachePrepare rootSector shift) p = [DirOut.dirFile file]
    ∧ blockAt (printDir intBits up dataCachePrepare rootSector shift) (p + 1)
        = [DirOut.dirStream stream]
    ∧ (∀ k, k + 1 < names.length →
        blockAt (printDir intBits up dataCachePrepare rootSector shift) (p + (k + 2))
          = [DirOut.dirName (names.getD k [])])
    ∧ blockAt (printDir intBits up dataCachePrepare rootSector shift) (p + (names.length + 1))
        = DirOut.dirName (names.getD (names.length - 1) []) ::
            comparison (storedSetChecksum file) (setChecksumOf file stream names)
              (storedNameHash stream) (nameHashOf up name)
    ∧ findingsAt (printDir intBits up dataCachePrepare rootSector shift) p (names.length + 2)
        = blockFindings (DirOut.dirName (names.getD (names.length - 1) []) ::
            comparison (storedSetChecksum file) (setChecksumOf file stream names)
              (storedNameHash stream) (nameHashOf up name)) := by
  obtain ⟨hfr, hsr, hnr, hft, hst, hnt, hN, hsc, hnl, hlo, hhi, hunits, hslots⟩ := hwf
  have hne : ∀ d ∈ file :: stream :: names, d.getD 0 0 ≠ EXFAT_TYPE_END_DIR := by
    intro d hd
    simp only [List.mem_cons] at hd
    rcases hd with rfl | rfl | hd
    · rw [hft]; decide
    · rw [hst]; decide
    · rw [hnt d hd]; decide
  obtain ⟨v, hv⟩ := printDir_blocks intBits up dataCachePrepare rootSector shift p
    (file :: stream :: names) (by simpa using hn) hr hrecs hne
  have hL : stream.getD DirStream_nameLength 0 < 256 := by
    have hlt : DirStream_nameLength < stream.length := by rw [hsr.1]; decide
    rw [List.getD_eq_getElem _ _ hlt]
    exact hsr.2 _ (List.getElem_mem hlt)
  have hnameBlock := fun k (hk : k < names.length) =>
    runRecords_set_name_block intBits up v file stream names k hft hst hnt hL hk
  have hrec : ∀ k, k < names.length → (names.getD k []).take 32 = names.getD k [] := by
    intro k hk
    exact List.take_of_length_le (by rw [(hnr _ (getD_mem_of_lt names k hk)).1])
  have b0 : blockAt (printDir intBits up dataCachePrepare rootSector shift) p
      = [DirOut.dirFile file] := by
    have := hv 0 (by simp)
    rw [Nat.add_zero] at this
    rw [this]
    simp [runRecords, printDirSwitch_file intBits up v file hft,
      List.take_of_length_le (Nat.le_of_eq hfr.1)]
  have b1 : blockAt (printDir intBits up dataCachePrepare rootSector shift) (p + 1)
      = [DirOut.dirStream stream] := by
    rw [hv 1 (by simp)]
    simp [runRecords, printDirSwitch_file intBits up v file hft,
      printDirSwitch_stream intBits up _ stream hst,
      List.take_of_length_le (Nat.le_of_eq hsr.1)]
  have bk : ∀ k, k + 1 < names.length →
      blockAt (printDir intBits up dataCachePrepare rootSector shift) (p + (k + 2))
        = [DirOut.dirName (names.getD k [])] := by
    intro k hk
    rw [hv (k + 2) (by simp; omega), hnameBlock k (by omega), hrec k (by omega), if_neg]
    rw [hsc, hnl]
    omega
  have hcsum : checksumThrough intBits file stream names (names.length - 1 + 1)
      = setChecksumOf file stream names := by
    rw [show names.length - 1 + 1 = names.length by omega]
    exact checksumThrough_eq_setChecksumOf intBits hw file stream names hfr.1 hft hsr.1
      (by rw [hst]; decide)
      (fun d hd => ⟨(hnr d hd).1, by rw [hnt d hd]; decide⟩)
  have hhash : hashThrough intBits up names (names.length - 1 + 1) = nameHashOf up name := by
    rw [show names.length - 1 + 1 = names.length by omega]
    unfold hashThrough nameHashOf
    rw [List.take_length]
    exact foldl_hashDir_eq intBits up hw names name 0 hslots (fun u hu => (hunits u hu).1) hhi
  have bl : blockAt (printDir intBits up dataCachePrepare rootSector shift)
      (p + (names.length + 1))
      = DirOut.dirName (names.getD (names.length - 1) []) ::
          comparison (storedSetChecksum file) (setChecksumOf file stream names)
            (storedNameHash stream) (nameHashOf up name) := by
    have h1 := hv (names.length - 1 + 2) (by simp; omega)
    rw [show names.length - 1 + 2 = names.length + 1 by omega] at h1
    have h2 := hnameBlock (names.length - 1) (by omega)
    rw [show names.length - 1 + 2 = names.length + 1 by omega] at h2
    rw [h1, h2, hrec _ (by omega), if_pos (Or.inl (by rw [hnl]; omega)), hcsum, hhash]
  refine ⟨b0, b1, bk, bl, ?_⟩
  unfold findingsAt
  rw [flatMap_range_last _ (names.length + 1), bl]
  intro k hk
  match k with
  | 0 => rw [Nat.add_zero, b0]; simp [blockFindings]
  | 1 => rw [b1]; simp [blockFindings]
  | k + 2 => rw [bk k (by omega)]; simp [blockFindings]

/-- C4: for every well-formed entry set scanned by `printDir` whose stored
`setChecksum` is the rotate-and-add checksum of the set (stored field
excluded) and whose stored `nameHash` is the hash of the case-folded name,
`printDir` prints only field dumps for the records of the set before the last
`FileName` record, and at the last `FileName` record one comparison, which
reads `==` for the checksum and for the name hash: the set yields exactly one
finding, of kind `Ok`. -/
theorem printDir_wellFormedSet_ok (intBits : Nat) (up : Nat → Nat)
    (dataCachePrepare : Nat → Option (List Nat)) (rootSector shift p : Nat)
    (file stream : List Nat) (names : List (List Nat)) (name : List Nat)
    (hw : 16 ≤ intBits) (hwf : wellFormedSet file stream names name)
    (hn : p + (names.length + 2) ≤ nDirOf shift)
    (hr : readableUpTo dataCachePrepare rootSector p)
    (hrecs : recordsAt dataCachePrepare rootSector p (file :: stream :: names))
    (hcs : storedSetChecksum file = setChecksumOf file stream names)
    (hnh : storedNameHash stream = nameHashOf up name) :
    blockAt (printDir intBits up dataCachePrepare rootSector shift) p = [DirOut.dirFile file]
    ∧ blockAt (printDir intBits up dataCachePrepare rootSector shift) (p + 1)
        = [DirOut.dirStream stream]
    ∧ (∀ k, k + 1 < names.length →
        blockAt (printDir intBits up dataCachePrepare rootSector shift) (p + (k + 2))
          = [DirOut.dirName (names.getD k [])])
    ∧ blockAt (printDir intBits up dataCachePrepare rootSector shift) (p + (names.length + 1))
        = [DirOut.dirName (names.getD (names.length - 1) []),
           DirOut.setChecksum (storedSetChecksum file) Rel.eq (setChecksumOf file stream names),
           DirOut.nameHash (storedNameHash stream) Rel.eq (nameHashOf up name)]
    ∧ findingsAt (printDir intBits up dataCachePrepare rootSector shift) p (names.length + 2)
        = [FindingKind.Ok] := by
  obtain ⟨b0, b1, bk, bl, hf⟩ := printDir_wellFormedSet_blocks intBits up dataCachePrepare
    rootSector shift p file stream names name hw hwf hn hr hrecs
  refine ⟨b0, b1, bk, ?_, ?_⟩
  · rw [bl]
    simp only [comparison]
    rw [← hcs, ← hnh, relOf_self, relOf_self]
  · rw [hf, blockFindings_dirName_comparison, ← hcs, ← hnh, relOf_self, relOf_self]
    simp

/-- Witness of C4: the sample entry set (name "Ab") at the start of the root
directory yields exactly one finding, of kind `Ok`. -/
theorem printDir_wellFormedSet_ok_witness :
    wellFormedSet sampleFile sampleStream [sampleName] [0x41, 0x62]
      ∧ blockAt (printDir 32 asciiUpcase sampleCache 0 0) 2
          = [DirOut.dirName sampleName, DirOut.setChecksum 0x3BFE Rel.eq 0x3BFE,
             DirOut.nameHash 0x2029 Rel.eq 0x2029]
      ∧ findingsAt (printDir 32 asciiUpcase sampleCache 0 0) 0 3 = [FindingKind.Ok] :=
  have h := printDir_wellFormedSet_ok 32 asciiUpcase sampleCache 0 0 0
    sampleFile sampleStream [sampleName] [0x41, 0x62]
    (by decide) (by decide) (by decide) (fun j hj => absurd hj (Nat.not_lt_zero j))
    (by decide) (by decide) (by decide)
  ⟨by decide, by rw [show (2 : Nat) = 0 + ([sampleName].length + 1) from rfl, h.2.2.2.1]; decide,
    h.2.2.2.2⟩


/-! ### A changed byte changes the rolling checksum -/

theorem foldl_lt {α : Type} (F : Nat → α → Nat) (hb : ∀ c x, c < 65536 → F c x < 65536) :
    ∀ (l : List α) (c : Nat), c < 65536 → l.foldl F c < 65536 := by
  intro l
  induction l with
  | nil => intro c hc; simpa using hc
  | cons a l ih => intro c hc; exact ih _ (hb c a hc)

theorem foldl_seed_injective {α : Type} (F : Nat → α → Nat)
    (hb : ∀ c x, c < 65536 → F c x < 65536)
    (hinj : ∀ x c c2, c < 65536 → c2 < 65536 → c ≠ c2 → F c x ≠ F c2 x) :
    ∀ (l : List α) (c c2 : Nat), c < 65536 → c2 < 65536 → c ≠ c2 →
      l.foldl F c ≠ l.foldl F c2 := by
  intro l
  induction l with
  | nil => intro c c2 _ _ h; simpa using h
  | cons a l ih =>
    intro c c2 hc hc2 h
    exact ih _ _ (hb c a hc) (hb c2 a hc2) (hinj a c c2 hc hc2 h)

theorem foldl_set_ne {α : Type} (F : Nat → α → Nat) (hb : ∀ c x, c < 65536 → F c x < 65536)
    (hinj : ∀ x c c2, c < 65536 → c2 < 65536 → c ≠ c2 → F c x ≠ F c2 x) (dflt y : α) :
    ∀ (l : List α) (j c : Nat), c < 65536 → j < l.length →
      (∀ c, c < 65536 → F c y ≠ F c (l.getD j dflt)) →
      (l.set j y).foldl F c ≠ l.foldl F c := by
  intro l
  induction l with
  | nil => intro j c _ hj; simp at hj
  | cons a l ih =>
    intro j c hc hj hy
    cases j with
    | zero =>
      simp only [List.set_cons_zero, List.foldl_cons]
      exact foldl_seed_injective F hb hinj l _ _ (hb c y hc) (hb c a hc)
        (by simpa using hy c hc)
    | succ j =>
      simp only [List.set_cons_succ, List.foldl_cons]
      exact ih j _ (hb c a hc) (by simpa using hj) (by simpa using hy)

theorem checksumStep_seed_injective (x c c2 : Nat) (hc : c < 65536) (hc2 : c2 < 65536)
    (h : c ≠ c2) : checksumStep c x ≠ checksumStep c2 x := by
  have h1 : rotateRight16 c < 65536 := by rw [rotateRight16_eq c hc]; omega
  have h2 : rotateRight16 c2 < 65536 := by rw [rotateRight16_eq c2 hc2]; omega
  have h3 : rotateRight16 c ≠ rotateRight16 c2 := by
    rw [rotateRight16_eq c hc, rotateRight16_eq c2 hc2]; omega
  unfold checksumStep
  omega

theorem checksumStep_byte_injective (c a b : Nat) (ha : a < 65536) (hb : b < 65536)
    (h : a ≠ b) : checksumStep c a ≠ checksumStep c b := by
  unfold checksumStep
  omega

theorem foldl_checksumStep_set_ne (l : List Nat) (j b c : Nat) (hc : c < 65536)
    (hj : j < l.length) (hold : l.getD j 0 < 65536) (hb : b < 65536) (hne : b ≠ l.getD j 0) :
    (l.set j b).foldl checksumStep c ≠ l.foldl checksumStep c :=
  foldl_set_ne checksumStep (fun c x _ => checksumStep_lt c x) checksumStep_seed_injective
    0 b l j c hc hj
    (fun c _ => checksumStep_byte_injective c b _ hb hold hne)

/-- The comparison `printDir` prints at the last `FileName` record of a
`File`, `StreamExtension`, `FileName`.. sequence found in the stream, when the
declared name length or the declared `setCount` is used up there. -/
theorem printDir_last_name_block (w : Nat) (up : Nat → Nat)
    (cache : Nat → Option (List Nat)) (root shift p : Nat)
    (file stream : List Nat) (names : List (List Nat)) (hw : 16 ≤ w)
    (hfl : file.length = 32) (hft : file.getD 0 0 = EXFAT_TYPE_FILE)
    (hsl : stream.length = 32) (hst : stream.getD 0 0 = EXFAT_TYPE_STREAM)
    (hnl : ∀ d ∈ names, d.length = 32) (hnt : ∀ d ∈ names, d.getD 0 0 = EXFAT_TYPE_NAME)
    (hL : stream.getD DirStream_nameLength 0 < 256) (hN : 1 ≤ names.length)
    (hcond : stream.getD DirStream_nameLength 0 ≤ 15 * names.length
      ∨ (file.getD DirFile_setCount 0 + 255 * (names.length + 1)) % 256 = 0)
    (hn : p + (names.length + 2) ≤ nDirOf shift) (hr : readableUpTo cache root p)
    (hrecs : recordsAt cache root p (file :: stream :: names)) :
    blockAt (printDir w up cache root shift) (p + (names.length + 1)) =
      DirOut.dirName (names.getD (names.length - 1) []) ::
        comparison (storedSetChecksum file) (setChecksumOf file stream names)
          (storedNameHash stream) (hashThrough w up names names.length) := by
  have hne : ∀ d ∈ file :: stream :: names, d.getD 0 0 ≠ EXFAT_TYPE_END_DIR := by
    intro d hd
    simp only [List.mem_cons] at hd
    rcases hd with rfl | rfl | hd
    · rw [hft]; decide
    · rw [hst]; decide
    · rw [hnt d hd]; decide
  obtain ⟨v, hv⟩ := printDir_blocks w up cache root shift p
    (file :: stream :: names) (by simpa using hn) hr hrecs hne
  have h1 := hv (names.length - 1 + 2) (by simp; omega)
  have h2 := runRecords_set_name_block w up v file stream names (names.length - 1)
    hft hst hnt hL (by omega)
  have e1 : names.length - 1 + 2 = names.length + 1 := by omega
  have e2 : names.length - 1 + 1 = names.length := by omega
  rw [e1] at h1 h2
  rw [e2] at h2
  rw [h1, h2, if_pos hcond,
    List.take_of_length_le (Nat.le_of_eq (hnl _ (getD_mem_of_lt names _ (by omega)))),
    checksumThrough_eq_setChecksumOf w hw file stream names hfl hft hsl (by rw [hst]; decide)
      (fun d hd => ⟨hnl d hd, by rw [hnt d hd]; decide⟩)]

theorem getD_lt_of_isRecord (d : List Nat) (h : isRecord d) (j : Nat) : d.getD j 0 < 256 := by
  by_cases hj : j < d.length
  · rw [List.getD_eq_getElem _ _ hj]
    exact h.2 _ (List.getElem_mem hj)
  · rw [List.getD_eq_default _ _ (by omega)]
    omega

theorem foldl_checksumStep_lt (l : List Nat) (c : Nat) (hc : c < 65536) :
    l.foldl checksumStep c < 65536 :=
  foldl_lt checksumStep (fun c x _ => checksumStep_lt c x) l c hc

theorem foldl_checksumStep_seed_ne (l : List Nat) (c c2 : Nat) (hc : c < 65536)
    (hc2 : c2 < 65536) (h : c ≠ c2) : l.foldl checksumStep c ≠ l.foldl checksumStep c2 :=
  foldl_seed_injective checksumStep (fun c x _ => checksumStep_lt c x)
    checksumStep_seed_injective l c c2 hc hc2 h

theorem setChecksumOf_file_set_ne (file stream : List Nat) (names : List (List Nat))
    (o b : Nat) (hfr : isRecord file) (ho : o = 1 ∨ 4 ≤ o) (ho2 : o < 32) (hb : b < 256)
    (hne : b ≠ file.getD o 0) :
    setChecksumOf (file.set o b) stream names ≠ setChecksumOf file stream names := by
  have hold := getD_lt_of_isRecord file hfr o
  simp only [setChecksumOf, List.foldl_append]
  apply foldl_checksumStep_seed_ne _ _ _ (foldl_checksumStep_lt _ _ (foldl_checksumStep_lt _ _
    (foldl_checksumStep_lt _ _ (by omega)))) (foldl_checksumStep_lt _ _
    (foldl_checksumStep_lt _ _ (foldl_checksumStep_lt _ _ (by omega))))
  apply foldl_checksumStep_seed_ne _ _ _ (foldl_checksumStep_lt _ _
    (foldl_checksumStep_lt _ _ (by omega))) (foldl_checksumStep_lt _ _
    (foldl_checksumStep_lt _ _ (by omega)))
  rw [← List.foldl_append, ← List.foldl_append]
  rcases ho with rfl | ho
  · have e : (file.set 1 b).take 2 ++ (file.set 1 b).drop 4
        = (file.take 2 ++ file.drop 4).set 1 b := by
      rw [List.set_take, List.drop_set_of_lt _ _ (by omega),
        List.set_append_left _ _ (by simp [hfr.1])]
    rw [e]
    apply foldl_checksumStep_set_ne _ _ _ _ (by omega) (by simp [hfr.1])
    · rw [List.getD_append _ _ _ _ (by simp [hfr.1]), getD_take_of_lt _ _ _ (by omega)]; omega
    · omega
    · rw [List.getD_append _ _ _ _ (by simp [hfr.1]), getD_take_of_lt _ _ _ (by omega)]
      exact hne
  · have e : (file.set o b).take 2 ++ (file.set o b).drop 4
        = (file.take 2 ++ file.drop 4).set (o - 2) b := by
      rw [List.take_set_of_lt _ _ (by omega), List.drop_set, if_neg (by omega),
        List.set_append_right _ _ (by simp [hfr.1]; omega)]
      simp only [List.length_take, hfr.1]
      rw [show o - 2 - min 2 32 = o - 4 by omega]
    have eg : (file.take 2 ++ file.drop 4).getD (o - 2) 0 = file.getD o 0 := by
      rw [List.getD_append_right _ _ _ _ (by simp [hfr.1]; omega), getD_drop_add]
      simp only [List.length_take, hfr.1]
      congr 1
      omega
    rw [e]
    apply foldl_checksumStep_set_ne _ _ _ _ (by omega) (by simp [hfr.1]; omega)
    · rw [eg]; omega
    · omega
    · rw [eg]; exact hne

theorem setChecksumOf_stream_set_ne (file stream : List Nat) (names : List (List Nat))
    (o b : Nat) (hsr : isRecord stream) (ho2 : o < 32) (hb : b < 256)
    (hne : b ≠ stream.getD o 0) :
    setChecksumOf file (stream.set o b) names ≠ setChecksumOf file stream names := by
  have hold := getD_lt_of_isRecord stream hsr o
  simp only [setChecksumOf, List.foldl_append]
  apply foldl_checksumStep_seed_ne _ _ _ (foldl_checksumStep_lt _ _ (foldl_checksumStep_lt _ _
    (foldl_checksumStep_lt _ _ (by omega)))) (foldl_checksumStep_lt _ _
    (foldl_checksumStep_lt _ _ (foldl_checksumStep_lt _ _ (by omega))))
  exact foldl_checksumStep_set_ne _ _ _ _ (foldl_checksumStep_lt _ _
    (foldl_checksumStep_lt _ _ (by omega))) (by rw [hsr.1]; exact ho2) (by omega) (by omega) hne

theorem setChecksumOf_name_set_ne (file stream : List Nat) (names : List (List Nat))
    (j o b : Nat) (hj : j < names.length) (hnr : isRecord (names.getD j []))
    (ho2 : o < 32) (hb : b < 256) (hne : b ≠ (names.getD j []).getD o 0) :
    setChecksumOf file stream (names.set j ((names.getD j []).set o b))
      ≠ setChecksumOf file stream names := by
  have hold := getD_lt_of_isRecord _ hnr o
  simp only [setChecksumOf, List.foldl_append, List.foldl_flatten]
  apply foldl_set_ne (fun c (d : List Nat) => d.foldl checksumStep c)
    (fun c x hc => foldl_checksumStep_lt x c hc)
    (fun x c c2 hc hc2 h => foldl_checksumStep_seed_ne x c c2 hc hc2 h) [] _ names j _
    (foldl_checksumStep_lt _ _ (foldl_checksumStep_lt _ _ (foldl_checksumStep_lt _ _ (by omega))))
    hj
  intro c hc
  exact foldl_checksumStep_set_ne _ _ _ _ hc (by rw [hnr.1]; exact ho2) (by omega) (by omega) hne

theorem isRecord_set (d : List Nat) (o b : Nat) (h : isRecord d) (hb : b < 256) :
    isRecord (d.set o b) := by
  refine ⟨by rw [List.length_set]; exact h.1, fun x hx => ?_⟩
  rcases List.mem_or_eq_of_mem_set hx with hx | rfl
  · exact h.2 x hx
  · exact hb

theorem getD_set_ne (d : List Nat) (o j b : Nat) (h : o ≠ j) :
    (d.set o b).getD j 0 = d.getD j 0 := by
  simp [List.getD_eq_getElem?_getD, List.getElem?_set_ne h]

theorem storedSetChecksum_set (file : List Nat) (o b : Nat) (h2 : o ≠ 2) (h3 : o ≠ 3) :
    storedSetChecksum (file.set o b) = storedSetChecksum file := by
  unfold storedSetChecksum getLe16 DirFile_setChecksum
  rw [getD_drop_add, getD_drop_add, getD_drop_add, getD_drop_add,
    getD_set_ne _ _ _ _ h2, getD_set_ne _ _ _ _ h3]

theorem mismatch_of_block (r : PrintDirResult) (p n : Nat) (x : List Nat) (s c sh h : Nat)
    (hblock : blockAt r (p + (n + 1)) = DirOut.dirName x :: comparison s c sh h)
    (hne : c ≠ s) :
    DirOut.setChecksum s Rel.ne c ∈ blockAt r (p + (n + 1))
      ∧ FindingKind.ChecksumMismatch ∈ findingsAt r p (n + 2) := by
  have hrel : relOf s c = Rel.ne := relOf_of_ne s c (Ne.symm hne)
  refine ⟨by rw [hblock]; simp [comparison, hrel], ?_⟩
  unfold findingsAt
  rw [List.mem_flatMap]
  refine ⟨n + 1, by simp, ?_⟩
  rw [hblock]
  simp [comparison, hrel, blockFindings]

/-- C5 (amended): in a well-formed entry set whose stored checksum is correct,
replacing one byte of one record by a different value, at any offset other
than the tag byte (offset 0) and outside the stored `setChecksum` field of the
`File` record (offsets 2..3), makes the comparison that `printDir` prints at
the last `FileName` record read `setChecksum != calcChecksum`: the checksum
computed over the modified records differs from the stored one. -/
theorem printDir_byte_change_checksum_mismatch (intBits : Nat) (up : Nat → Nat)
    (dataCachePrepare : Nat → Option (List Nat)) (rootSector shift p : Nat)
    (file stream : List Nat) (names : List (List Nat)) (name : List Nat) (r o b : Nat)
    (hw : 16 ≤ intBits) (hwf : wellFormedSet file stream names name)
    (hcs : storedSetChecksum file = setChecksumOf file stream names)
    (hr : r < names.length + 2) (ho1 : 1 ≤ o) (ho2 : o < 32)
    (hfield : r = 0 → o ≠ 2 ∧ o ≠ 3) (hb : b < 256)
    (hne : b ≠ ((file :: stream :: names).getD r []).getD o 0)
    (hn : p + (names.length + 2) ≤ nDirOf shift)
    (hread : readableUpTo dataCachePrepare rootSector p)
    (hrecs : recordsAt dataCachePrepare rootSector p
      (setByte (file :: stream :: names) r o b)) :
    checksumOfRecords (setByte (file :: stream :: names) r o b) ≠ storedSetChecksum file
    ∧ DirOut.setChecksum (storedSetChecksum file) Rel.ne
          (checksumOfRecords (setByte (file :: stream :: names) r o b))
        ∈ blockAt (printDir intBits up dataCachePrepare rootSector shift)
            (p + (names.length + 1))
    ∧ FindingKind.ChecksumMismatch
        ∈ findingsAt (printDir intBits up dataCachePrepare rootSector shift) p
            (names.length + 2) := by
  obtain ⟨hfr, hsr, hnr, hft, hst, hnt, hN, hsc, hnl, hlo, hhi, hunits, hslots⟩ := hwf
  have hLlt : stream.getD DirStream_nameLength 0 < 256 := getD_lt_of_isRecord stream hsr _
  have ho0 : o ≠ 0 := by omega
  match r with
  | 0 =>
    obtain ⟨h2, h3⟩ := hfield rfl
    have hs : setByte (file :: stream :: names) 0 o b = file.set o b :: stream :: names := by
      simp [setByte]
    rw [hs] at hrecs ⊢
    have hneq : setChecksumOf (file.set o b) stream names ≠ storedSetChecksum file := by
      rw [hcs]
      exact setChecksumOf_file_set_ne file stream names o b hfr (by omega) ho2 hb
        (by simpa using hne)
    have hblock := printDir_last_name_block intBits up dataCachePrepare rootSector shift p
      (file.set o b) stream names hw (by rw [List.length_set]; exact hfr.1)
      (by rw [getD_set_ne _ _ _ _ ho0]; exact hft) hsr.1 hst (fun d hd => (hnr d hd).1) hnt
      hLlt hN (Or.inl (by rw [hnl]; exact hhi)) hn hread hrecs
    rw [storedSetChecksum_set file o b h2 h3] at hblock
    exact ⟨hneq, mismatch_of_block _ p names.length _ _ _ _ _ hblock hneq⟩
  | 1 =>
    have hs : setByte (file :: stream :: names) 1 o b = file :: stream.set o b :: names := by
      simp [setByte]
    rw [hs] at hrecs ⊢
    have hneq : setChecksumOf file (stream.set o b) names ≠ storedSetChecksum file := by
      rw [hcs]
      exact setChecksumOf_stream_set_ne file stream names o b hsr ho2 hb (by simpa using hne)
    have hblock := printDir_last_name_block intBits up dataCachePrepare rootSector shift p
      file (stream.set o b) names hw hfr.1 hft (by rw [List.length_set]; exact hsr.1)
      (by rw [getD_set_ne _ _ _ _ ho0]; exact hst) (fun d hd => (hnr d hd).1) hnt
      (getD_lt_of_isRecord _ (isRecord_set stream o b hsr hb) _) hN
      (Or.inr (by rw [hsc]; omega)) hn hread hrecs
    exact ⟨hneq, mismatch_of_block _ p names.length _ _ _ _ _ hblock hneq⟩
  | j + 2 =>
    have hj : j < names.length := by omega
    have hs : setByte (file :: stream :: names) (j + 2) o b
        = file :: stream :: names.set j ((names.getD j []).set o b) := by
      simp [setByte]
    rw [hs] at hrecs ⊢
    have hjr : isRecord (names.getD j []) := hnr _ (getD_mem_of_lt names j hj)
    have hneq : setChecksumOf file stream (names.set j ((names.getD j []).set o b))
        ≠ storedSetChecksum file := by
      rw [hcs]
      exact setChecksumOf_name_set_ne file stream names j o b hj hjr ho2 hb (by simpa using hne)
    have hlen : (names.set j ((names.getD j []).set o b)).length = names.length :=
      List.length_set _ _ _
    have hblock := printDir_last_name_block intBits up dataCachePrepare rootSector shift p
      file stream (names.set j ((names.getD j []).set o b)) hw hfr.1 hft hsr.1 hst
      (fun d hd => by
        rcases List.mem_or_eq_of_mem_set hd with hd | rfl
        · exact (hnr d hd).1
        · rw [List.length_set]; exact hjr.1)
      (fun d hd => by
        rcases List.mem_or_eq_of_mem_set hd with hd | rfl
        · exact hnt d hd
        · rw [getD_set_ne _ _ _ _ ho0]; exact hnt _ (getD_mem_of_lt names j hj))
      hLlt (by rw [hlen]; exact hN) (Or.inl (by rw [hlen, hnl]; exact hhi))
      (by rw [hlen]; exact hn) hread hrecs
    rw [hlen] at hblock
    exact ⟨hneq, mismatch_of_block _ p names.length _ _ _ _ _ hblock hneq⟩

/-- C5 as stated fails: replacing the tag byte of the `FileName` record of the
sample entry set (stored checksum correct) by `0x00` ends the scan at that
record; `printDir` prints no comparison and reports no checksum mismatch. -/
theorem printDir_tag_change_no_mismatch_counterexample :
    wellFormedSet sampleFile sampleStream [sampleName] [0x41, 0x62]
      ∧ storedSetChecksum sampleFile = setChecksumOf sampleFile sampleStream [sampleName]
      ∧ sampleName.getD 0 0 ≠ 0x00
      ∧ recordsAt sampleCacheTagChanged 0 0
          (setByte [sampleFile, sampleStream, sampleName] 2 0 0x00)
      ∧ printDir 32 asciiUpcase sampleCacheTagChanged 0 0
          = ⟨[[DirOut.dirFile sampleFile], [DirOut.dirStream sampleStream]], true⟩
      ∧ FindingKind.ChecksumMismatch
          ∉ findings (printDir 32 asciiUpcase sampleCacheTagChanged 0 0) := by
  decide

/-- Witness of the amended C5: the byte at offset 4 of the sample `File` record
changed from `0x20` to `0x21`. -/
theorem printDir_byte_change_checksum_mismatch_witness :
    recordsAt sampleCacheByteChanged 0 0
        (setByte [sampleFile, sampleStream, sampleName] 0 4 0x21)
      ∧ checksumOfRecords (setByte [sampleFile, sampleStream, sampleName] 0 4 0x21)
          ≠ storedSetChecksum sampleFile
      ∧ DirOut.setChecksum (storedSetChecksum sampleFile) Rel.ne
            (checksumOfRecords (setByte [sampleFile, sampleStream, sampleName] 0 4 0x21))
          ∈ blockAt (printDir 32 asciiUpcase sampleCacheByteChanged 0 0) 2
      ∧ FindingKind.ChecksumMismatch
          ∈ findingsAt (printDir 32 asciiUpcase sampleCacheByteChanged 0 0) 0 3 :=
  ⟨by decide,
    printDir_byte_change_checksum_mismatch 32 asciiUpcase sampleCacheByteChanged 0 0 0
      sampleFile sampleStream [sampleName] [0x41, 0x62] 0 4 0x21
      (by decide) (by decide) (by decide) (by decide) (by decide) (by decide) (by decide)
      (by decide) (by decide) (by decide) (fun j hj => absurd hj (Nat.not_lt_zero j))
      (by decide)⟩


/-! ### A changed name character and the name hash -/

theorem hashStep_lt (up : Nat → Nat) (h u : Nat) : hashStep up h u < 65536 :=
  checksumStep_lt _ _

theorem hashStep_seed_injective (up : Nat → Nat) (u c c2 : Nat) (hc : c < 65536)
    (hc2 : c2 < 65536) (h : c ≠ c2) : hashStep up c u ≠ hashStep up c2 u := by
  unfold hashStep hashStepFolded
  exact checksumStep_seed_injective _ _ _ (checksumStep_lt _ _) (checksumStep_lt _ _)
    (checksumStep_seed_injective _ _ _ hc hc2 h)

theorem nameHashOf_split (up : Nat → Nat) (name : List Nat) (i : Nat) (hi : i < name.length) :
    nameHashOf up name =
      (name.drop (i + 1)).foldl (hashStep up)
        (hashStep up (nameHashOf up (name.take i)) (name.getD i 0)) := by
  unfold nameHashOf
  conv_lhs => rw [← List.take_append_drop i name, List.drop_eq_getElem_cons hi]
  rw [List.foldl_append, List.foldl_cons, List.getD_eq_getElem _ _ hi]

theorem nameHashOf_set (up : Nat → Nat) (name : List Nat) (i u : Nat) (hi : i < name.length) :
    nameHashOf up (name.set i u) =
      (name.drop (i + 1)).foldl (hashStep up)
        (hashStep up (nameHashOf up (name.take i)) u) := by
  rw [nameHashOf_split up (name.set i u) i (by rw [List.length_set]; exact hi)]
  rw [List.drop_set_of_lt _ _ (by omega), List.set_take,
    List.set_eq_of_length_le (by simp)]
  simp [List.getD_eq_getElem?_getD, List.getElem?_set, hi]

theorem nameHashOf_lt (up : Nat → Nat) (name : List Nat) : nameHashOf up name < 65536 :=
  foldl_lt (hashStep up) (fun c x _ => hashStep_lt up c x) name 0 (by omega)

theorem nameHashOf_set_ne_iff (up : Nat → Nat) (name : List Nat) (i u : Nat)
    (hi : i < name.length) :
    nameHashOf up name ≠ nameHashOf up (name.set i u) ↔
      hashStep up (nameHashOf up (name.take i)) u
        ≠ hashStep up (nameHashOf up (name.take i)) (name.getD i 0) := by
  rw [nameHashOf_set up name i u hi, nameHashOf_split up name i hi]
  constructor
  · intro h heq
    exact h (by rw [heq])
  · intro h
    exact foldl_seed_injective (hashStep up) (fun c x _ => hashStep_lt up c x)
      (hashStep_seed_injective up) _ _ _ (hashStep_lt _ _ _) (hashStep_lt _ _ _) (Ne.symm h)

theorem hashMismatch_mem_iff (x : List Nat) (s c sh h : Nat) :
    FindingKind.HashMismatch ∈ blockFindings (DirOut.dirName x :: comparison s c sh h)
      ↔ sh ≠ h := by
  rw [blockFindings_dirName_comparison]
  by_cases h1 : s = c <;> by_cases h2 : sh = h <;> simp [relOf, h1, h2]

/-- C6 (amended): take a well-formed entry set whose name differs from a name
`name` in the one code unit at index `i`, now `u`, while the stored name hash
is still the hash of `name`.  `printDir` compares that stored hash with the
hash of the changed name, and it reports a name-hash mismatch exactly when the
rotate-and-add contribution of the folded new unit differs from that of the
folded old unit, both taken from the hash of the preceding units. -/
theorem printDir_name_change_hash (intBits : Nat) (up : Nat → Nat)
    (dataCachePrepare : Nat → Option (List Nat)) (rootSector shift p : Nat)
    (file stream : List Nat) (names : List (List Nat)) (name : List Nat) (i u : Nat)
    (hw : 16 ≤ intBits) (hi : i < name.length)
    (hwf : wellFormedSet file stream names (name.set i u))
    (hnh : storedNameHash stream = nameHashOf up name)
    (hn : p + (names.length + 2) ≤ nDirOf shift)
    (hr : readableUpTo dataCachePrepare rootSector p)
    (hrecs : recordsAt dataCachePrepare rootSector p (file :: stream :: names)) :
    DirOut.nameHash (nameHashOf up name)
        (relOf (nameHashOf up name) (nameHashOf up (name.set i u)))
        (nameHashOf up (name.set i u))
      ∈ blockAt (printDir intBits up dataCachePrepare rootSector shift)
          (p + (names.length + 1))
    ∧ (FindingKind.HashMismatch
        ∈ findingsAt (printDir intBits up dataCachePrepare rootSector shift) p
            (names.length + 2)
      ↔ hashStep up (nameHashOf up (name.take i)) u
          ≠ hashStep up (nameHashOf up (name.take i)) (name.getD i 0)) := by
  obtain ⟨_, _, _, bl, hf⟩ := printDir_wellFormedSet_blocks intBits up dataCachePrepare
    rootSector shift p file stream names (name.set i u) hw hwf hn hr hrecs
  refine ⟨?_, ?_⟩
  · rw [bl, hnh]
    simp [comparison]
  · rw [hf, hashMismatch_mem_iff, hnh]
    exact nameHashOf_set_ne_iff up name i u hi

/-- C6 as stated fails: in the sample entry set the name character `b` is
replaced by `B`; the ASCII folding maps both to `B`, so the computed hash still
equals the stored one and `printDir` prints `nameHash == calcHash`.  Even with
the identity as folding function two different code units can contribute the
same hash step. -/
theorem printDir_name_change_same_hash_counterexample :
    wellFormedSet sampleFile sampleStream [sampleName] [0x41, 0x62]
      ∧ storedNameHash sampleStream = nameHashOf asciiUpcase [0x41, 0x62]
      ∧ recordsAt sampleCacheCaseChanged 0 0
          [sampleFile, sampleStream, sampleName.set 4 0x42]
      ∧ nameUnits (sampleName.set 4 0x42) = padUnits [0x41, 0x42]
      ∧ blockAt (printDir 32 asciiUpcase sampleCacheCaseChanged 0 0) 2
          = [DirOut.dirName (sampleName.set 4 0x42), DirOut.setChecksum 0x3BFE Rel.ne 0x37FE,
             DirOut.nameHash 0x2029 Rel.eq 0x2029]
      ∧ FindingKind.HashMismatch
          ∉ findings (printDir 32 asciiUpcase sampleCacheCaseChanged 0 0)
      ∧ hashStep (fun u => u) 0 0x0100 = hashStep (fun u => u) 0 0x0002 := by
  decide

/-- Witness of the amended C6: the name character `b` replaced by `c`, which
the ASCII folding maps to `C`; `printDir` reports a name-hash mismatch. -/
theorem printDir_name_change_hash_witness :
    wellFormedSet sampleFile sampleStream [sampleName.set 4 0x63] ([0x41, 0x62].set 1 0x63)
      ∧ storedNameHash sampleStream = nameHashOf asciiUpcase [0x41, 0x62]
      ∧ FindingKind.HashMismatch
          ∈ findingsAt (printDir 32 asciiUpcase sampleCacheNameChanged 0 0) 0 3 :=
  ⟨by decide, by decide,
    (printDir_name_change_hash 32 asciiUpcase sampleCacheNameChanged 0 0 0
      sampleFile sampleStream [sampleName.set 4 0x63] [0x41, 0x62] 1 0x63
      (by decide) (by decide) (by decide) (by decide) (by decide)
      (fun j hj => absurd hj (Nat.not_lt_zero j)) (by decide)).2.mpr (by decide)⟩


/-! ### Which code units the computed name hash covers -/

theorem foldl_hashDir_eq_slots (w : Nat) (up : Nat → Nat) (hw : 16 ≤ w) :
    ∀ (names : List (List Nat)) (h : Nat),
      names.foldl (fun h d => hashDir w up d h) h
        = (names.flatMap hashedUnits).foldl (hashStep up) h := by
  intro names
  induction names with
  | nil => intro h; simp
  | cons d ds ih =>
    intro h
    rw [List.foldl_cons, List.flatMap_cons, List.foldl_append, ih,
      hashDir_eq_fold w up d h hw]
    rfl

theorem hashThrough_eq_slotsHash (w : Nat) (up : Nat → Nat) (hw : 16 ≤ w)
    (names : List (List Nat)) (k : Nat) :
    hashThrough w up names k = slotsHash up (names.take k) :=
  foldl_hashDir_eq_slots w up hw (names.take k) 0

/-- C9 (amended): at every `FileName` record of a `File`, `StreamExtension`,
`FileName`.. sequence, the name hash `printDir` computes and compares with the
stored hash is the fold over the code units of the name slots seen so far, each
slot taken up to but excluding its first zero unit (all 15 units if none is
zero); the declared name length only decides when the comparison is printed,
not which units are hashed. -/
theorem printDir_hash_covers_slots (intBits : Nat) (up : Nat → Nat)
    (dataCachePrepare : Nat → Option (List Nat)) (rootSector shift p : Nat)
    (file stream : List Nat) (names : List (List Nat)) (k : Nat) (hw : 16 ≤ intBits)
    (hft : file.getD 0 0 = EXFAT_TYPE_FILE) (hst : stream.getD 0 0 = EXFAT_TYPE_STREAM)
    (hnt : ∀ d ∈ names, d.getD 0 0 = EXFAT_TYPE_NAME)
    (hL : stream.getD DirStream_nameLength 0 < 256) (hk : k < names.length)
    (hn : p + (names.length + 2) ≤ nDirOf shift)
    (hr : readableUpTo dataCachePrepare rootSector p)
    (hrecs : recordsAt dataCachePrepare rootSector p (file :: stream :: names)) :
    blockAt (printDir intBits up dataCachePrepare rootSector shift) (p + (k + 2)) =
      DirOut.dirName ((names.getD k []).take 32) ::
        (if stream.getD DirStream_nameLength 0 ≤ 15 * (k + 1)
            ∨ (file.getD DirFile_setCount 0 + 255 * (k + 2)) % 256 = 0 then
          comparison (storedSetChecksum file) (checksumThrough intBits file stream names (k + 1))
            (storedNameHash stream) (slotsHash up (names.take (k + 1)))
        else []) := by
  have hne : ∀ d ∈ file :: stream :: names, d.getD 0 0 ≠ EXFAT_TYPE_END_DIR := by
    intro d hd
    simp only [List.mem_cons] at hd
    rcases hd with rfl | rfl | hd
    · rw [hft]; decide
    · rw [hst]; decide
    · rw [hnt d hd]; decide
  obtain ⟨v, hv⟩ := printDir_blocks intBits up dataCachePrepare rootSector shift p
    (file :: stream :: names) (by simpa using hn) hr hrecs hne
  rw [hv (k + 2) (by simp; omega),
    runRecords_set_name_block intBits up v file stream names k hft hst hnt hL hk,
    hashThrough_eq_slotsHash intBits up hw]

/-- C9 as stated fails: the sample entry set declares the name length 2 and
stores the hash of "Ab", but its name slot holds a third non-zero unit `c`;
the hash `printDir` computes covers all three units and differs from the hash
of the first two. -/
theorem printDir_hash_beyond_declared_length_counterexample :
    sampleStream.getD DirStream_nameLength 0 = 2
      ∧ nameUnits (sampleName.set 6 0x63) = padUnits [0x41, 0x62, 0x63]
      ∧ recordsAt sampleCacheExtraUnit 0 0 [sampleFile, sampleStream, sampleName.set 6 0x63]
      ∧ blockAt (printDir 32 asciiUpcase sampleCacheExtraUnit 0 0) 2
          = [DirOut.dirName (sampleName.set 6 0x63),
             DirOut.setChecksum 0x3BFE Rel.ne (checksumOfRecords
               [sampleFile, sampleStream, sampleName.set 6 0x63]),
             DirOut.nameHash 0x2029 Rel.ne (nameHashOf asciiUpcase [0x41, 0x62, 0x63])]
      ∧ nameHashOf asciiUpcase [0x41, 0x62, 0x63]
          ≠ nameHashOf asciiUpcase ([0x41, 0x62, 0x63].take 2)
      ∧ blockAt (printDir 32 asciiUpcase sampleCache 0 0) 2
          = [DirOut.dirName sampleName, DirOut.setChecksum 0x3BFE Rel.eq 0x3BFE,
             DirOut.nameHash 0x2029 Rel.eq 0x2029] := by
  decide

/-- Witness of the amended C9 at the sample entry set with the extra unit. -/
theorem printDir_hash_covers_slots_witness :
    blockAt (printDir 32 asciiUpcase sampleCacheExtraUnit 0 0) (0 + (0 + 2)) =
      DirOut.dirName (([sampleName.set 6 0x63].getD 0 []).take 32) ::
        (if sampleStream.getD DirStream_nameLength 0 ≤ 15 * (0 + 1)
            ∨ (sampleFile.getD DirFile_setCount 0 + 255 * (0 + 2)) % 256 = 0 then
          comparison (storedSetChecksum sampleFile)
            (checksumThrough 32 sampleFile sampleStream [sampleName.set 6 0x63] (0 + 1))
            (storedNameHash sampleStream)
            (slotsHash asciiUpcase ([sampleName.set 6 0x63].take (0 + 1)))
        else []) :=
  printDir_hash_covers_slots 32 asciiUpcase sampleCacheExtraUnit 0 0 0
    sampleFile sampleStream [sampleName.set 6 0x63] 0 (by decide) (by decide) (by decide)
    (by decide) (by decide) (by decide) (by decide)
    (fun j hj => absurd hj (Nat.not_lt_zero j)) (by decide)


/-! ### `EndOfDirectory` and incomplete sets -/

theorem checkUpcaseFetch_eq (cache : Nat → Option (List Nat)) (sector0 i sector v : Nat)
    (upcase : List Nat) (hinv : upcaseLoopInv cache sector0 i sector upcase)
    (hv : upcaseValueAt cache sector0 i = some v) :
    ∃ sector2 upcase2, upcaseLoopInv cache sector0 (i + 1) sector2 upcase2 ∧
      getLe16 (upcase2.drop (2 * (i &&& 0xFF))) = v ∧
      checkUpcaseFetch cache i sector upcase = some (upcase2, sector2) := by
  obtain ⟨hsec, hup⟩ := hinv
  unfold upcaseValueAt at hv
  cases hc : cache ((sector0 + i / 256) % 4294967296) with
  | none => rw [hc] at hv; simp at hv
  | some c =>
    rw [hc] at hv
    simp only [Option.map_some', Option.some.injEq] at hv
    have hand : i &&& 0xFF = i % 256 := by
      have := Nat.and_pow_two_sub_one_eq_mod i 8
      simpa using this
    refine ⟨(sector0 + (i + 256) / 256) % 4294967296, c, ⟨by omega, ?_⟩, by rw [hand]; exact hv, ?_⟩
    · intro h1
      have : (i + 1) / 256 = i / 256 := by omega
      rw [this, hc]
    · unfold checkUpcaseFetch
      by_cases h0 : i % 256 = 0
      · have hs : sector = (sector0 + i / 256) % 4294967296 := by rw [hsec]; omega
        rw [if_pos h0, hs, hc]
        simp only [Option.some.injEq, Prod.mk.injEq, true_and]
        omega
      · have hcu := hup h0
        rw [hc] at hcu
        have hcc : c = upcase := by simpa using hcu
        have e2 : sector = (sector0 + (i + 256) / 256) % 4294967296 := by rw [hsec]; omega
        rw [if_neg h0, hcc, ← e2]

theorem checkUpcaseLoop_run (w z : Nat) (up : Nat → Nat) (cache : Nat → Option (List Nat))
    (sector0 size : Nat) (hz : size / 2 < 2 ^ z) :
    ∀ (vals : List Nat) (fuel i sector : Nat) (upcase : List Nat) (skip : Bool) (u : Nat),
      upcaseLoopInv cache sector0 i sector upcase →
      i + vals.length = size / 2 → vals.length < fuel →
      (∀ k, k < vals.length → upcaseValueAt cache sector0 (i + k) = some (vals.getD k 0)) →
      checkUpcaseLoop w z up cache size fuel i sector upcase skip u
        = some ⟨(decodeRun w up skip u vals).2, UpcaseEnd.done⟩ := by
  intro vals
  induction vals with
  | nil =>
    intro fuel i sector upcase skip u _ hi hf _
    obtain ⟨f, rfl⟩ : ∃ f, fuel = f + 1 := ⟨fuel - 1, by simp at hf; omega⟩
    rw [checkUpcaseLoop, if_neg (by simp at hi; omega)]
    simp [decodeRun]
  | cons v vs ih =>
    intro fuel i sector upcase skip u hinv hi hf hvals
    obtain ⟨f, rfl⟩ : ∃ f, fuel = f + 1 := ⟨fuel - 1, by simp at hf; omega⟩
    have hv := hvals 0 (by simp)
    simp only [Nat.add_zero, List.getD_cons_zero] at hv
    obtain ⟨s2, u2, hinv2, hget, hfetch⟩ := checkUpcaseFetch_eq cache sector0 i sector v upcase hinv hv
    have hlt : i < size / 2 := by simp at hi; omega
    have hmod : (i + 1) % 2 ^ z = i + 1 := Nat.mod_eq_of_lt (by simp at hi; omega)
    rw [checkUpcaseLoop, if_pos hlt, hfetch]
    simp only [hget, hmod]
    rw [ih f (i + 1) s2 u2 _ _ hinv2 (by simp at hi; omega) (by simp at hf; omega)
      (fun k hk => by
        have := hvals (k + 1) (by simpa using hk)
        rw [List.getD_cons_succ] at this
        rw [← this]; congr 1; omega)]
    simp [decodeRun]

theorem locateUpcase_fst_lt (cs : Nat → Nat) (r : Nat) (root : List Nat) :
    (locateUpcase cs (r % 4294967296) root).1 < 4294967296 := by
  unfold locateUpcase
  split <;> simp only <;> omega

/-- The byte length found by `locateUpcase` is a `uint32_t`. -/
theorem locateUpcase_snd_lt (cs : Nat → Nat) (r : Nat) (root : List Nat) :
    (locateUpcase cs r root).2 < 4294967296 := by
  unfold locateUpcase
  split <;> simp only <;> omega

/-- When the root directory sector can be read, the table it points to is the
sequence `vals` of `size / 2` values, the loop counter does not wrap and the
fuel suffices, `checkUpcase` ends with `"Done checkUpcase"` and its output is
the loop body run over `vals`. -/
theorem checkUpcase_eq_decodeRun (w z : Nat) (up : Nat → Nat)
    (cache : Nat → Option (List Nat)) (cs : Nat → Nat) (rootSector fuel : Nat)
    (root : List Nat) (vals : List Nat)
    (hroot : cache (rootSector % 4294967296) = some root)
    (hsize : (locateUpcase cs (rootSector % 4294967296) root).2 ≠ 0)
    (hlen : vals.length = (locateUpcase cs (rootSector % 4294967296) root).2 / 2)
    (htab : tableAt cache (locateUpcase cs (rootSector % 4294967296) root).1 vals)
    (hz : 32 ≤ z ∨ vals.length < 2 ^ z) (hf : vals.length < fuel) :
    checkUpcase w z up cache cs rootSector fuel
      = some ⟨(decodeRun w up false 0 vals).2, UpcaseEnd.done⟩ := by
  have hz2 : (locateUpcase cs (rootSector % 4294967296) root).2 / 2 < 2 ^ z := by
    rcases hz with hz | hz
    · have h1 := locateUpcase_snd_lt cs (rootSector % 4294967296) root
      have h2 : 2 ^ 32 ≤ 2 ^ z := Nat.pow_le_pow_right (by decide) hz
      omega
    · rw [← hlen]; exact hz
  unfold checkUpcase
  rw [hroot]
  simp only [if_neg hsize]
  have hlt := locateUpcase_fst_lt cs rootSector root
  exact checkUpcaseLoop_run w z up cache (locateUpcase cs (rootSector % 4294967296) root).1
    (locateUpcase cs (rootSector % 4294967296) root).2 hz2 vals fuel 0
    (locateUpcase cs (rootSector % 4294967296) root).1 []
    false 0 ⟨by omega, fun h => absurd rfl h⟩ (by rw [Nat.zero_add]; exact hlen) hf
    (fun k hk => by rw [Nat.zero_add]; exact htab k hk)

/-! ### The loop body against the reference decoder -/

theorem filter_isMismatch_skipRunOut (w : Nat) (up : Nat → Nat) (u v : Nat) :
    (skipRunOut w up u v).filter UpcaseOut.isMismatch = skipRunOut w up u v := by
  rw [List.filter_eq_self]
  intro o ho
  unfold skipRunOut at ho
  rw [List.mem_filterMap] at ho
  obtain ⟨k, _, hk⟩ := ho
  simp only at hk
  split at hk
  · cases hk; rfl
  · cases hk

theorem skipRunOut_eq_ref (w : Nat) (up : Nat → Nat) (cur n : Nat) (hw : 16 ≤ w)
    (h : cur + n ≤ 65536) :
    skipRunOut w up (cur % 65536) n =
      (List.range n).filterMap (fun k =>
        if toUpcase up (cur + k) ≠ cur + k then
          some (UpcaseOut.skipMismatch (cur + k) (toUpcase up (cur + k)))
        else none) := by
  unfold skipRunOut
  apply List.filterMap_congr
  intro k hk
  have hk2 : k < n := List.mem_range.mp hk
  have h1 : cur % 65536 = cur := Nat.mod_eq_of_lt (by omega)
  have hpow : 65536 ≤ 2 ^ w := by
    calc 65536 = 2 ^ 16 := by norm_num
      _ ≤ 2 ^ w := Nat.pow_le_pow_right (by omega) hw
  have h2 : (cur + k) % 2 ^ w = cur + k := Nat.mod_eq_of_lt (by omega)
  have h3 : (cur + k) % 65536 = cur + k := Nat.mod_eq_of_lt (by omega)
  simp only [h1, h2, h3]

theorem decodeRun_filter_eq_refDecode (w : Nat) (up : Nat → Nat) (hw : 16 ≤ w) :
    ∀ (n : Nat) (vals : List Nat) (cur : Nat), vals.length ≤ n → inRange cur vals →
      (decodeRun w up false (cur % 65536) vals).2.filter UpcaseOut.isMismatch
        = refDecode up cur vals := by
  intro n
  induction n using Nat.strong_induction_on with
  | _ n ih =>
    intro vals cur hlen hin
    match vals with
    | [] => simp [decodeRun, refDecode]
    | v :: rest =>
      by_cases hv : v = 0xFFFF
      · subst hv
        match rest with
        | [] => simp [decodeRun, refDecode, checkUpcaseBody]
        | m :: rest2 =>
          simp only [inRange, if_true] at hin
          obtain ⟨hm, hcm, hin2⟩ := hin
          have hrec := ih (n - 2) (by simp at hlen; omega) rest2 (cur + m)
            (by simp at hlen; omega) hin2
          have hu : (cur % 65536 + m) % 65536 = (cur + m) % 65536 := by omega
          simp only [decodeRun, checkUpcaseBody, refDecode, if_true, hm, if_false, hu,
            List.nil_append, List.filter_append, hrec, filter_isMismatch_skipRunOut]
          rw [skipRunOut_eq_ref w up cur m hw hcm]
          simp [UpcaseOut.isMismatch]
      · rw [inRange.eq_def] at hin
        simp only [hv, if_false] at hin
        obtain ⟨hc, hin2⟩ := hin
        have hrec := ih (n - 1) (by simp at hlen; omega) rest (cur + 1)
          (by simp at hlen; omega) hin2
        have h1 : cur % 65536 = cur := Nat.mod_eq_of_lt hc
        rw [refDecode.eq_def]
        by_cases hx : v = toUpcase up cur
        · simp only [decodeRun, checkUpcaseBody, hv, if_false, h1,
            List.filter_append, hrec]
          simp [hx]
          exact hrec
        · have hx2 : toUpcase up cur ≠ v := fun h => hx h.symm
          simp only [decodeRun, checkUpcaseBody, hv, if_false, h1,
            List.filter_append, hrec]
          simp [hx, hx2, UpcaseOut.isMismatch]
          exact hrec

theorem checkUpcaseFetch_isSome (cache : Nat → Option (List Nat)) (i sector : Nat)
    (upcase : List Nat) (hall : ∀ s, cache s ≠ none) :
    ∃ r, checkUpcaseFetch cache i sector upcase = some r := by
  unfold checkUpcaseFetch
  by_cases h0 : i % 256 = 0
  · rw [if_pos h0]
    cases hc : cache sector with
    | none => exact absurd hc (hall sector)
    | some c => exact ⟨_, rfl⟩
  · rw [if_neg h0]
    exact ⟨_, rfl⟩

/-- With `size / 2` at or past `2 ^ sizeBits` and every sector read succeeding,
the `size_t` counter of `checkUpcase` wraps before it reaches `size / 2`: the
loop does not end, whatever the number of iterations allowed. -/
theorem checkUpcaseLoop_never_ends (w z : Nat) (up : Nat → Nat)
    (cache : Nat → Option (List Nat)) (size : Nat) (hsize : 2 ^ z ≤ size / 2)
    (hall : ∀ s, cache s ≠ none) :
    ∀ (fuel i sector : Nat) (upcase : List Nat) (skip : Bool) (u : Nat), i < 2 ^ z →
      checkUpcaseLoop w z up cache size fuel i sector upcase skip u = none := by
  intro fuel
  induction fuel with
  | zero => intro i sector upcase skip u _; rfl
  | succ g ih =>
    intro i sector upcase skip u hi
    obtain ⟨r, hr⟩ := checkUpcaseFetch_isSome cache i sector upcase hall
    rw [checkUpcaseLoop, if_pos (by omega), hr]
    simp only
    rw [ih ((i + 1) % 2 ^ z) _ _ _ _ (Nat.mod_lt _ (Nat.pow_pos (by decide)))]

/-- A table of `2 ^ sizeBits` values or more (possible only where `size_t` has
fewer than 32 bits, `size` being a `uint32_t`) with every sector readable:
`checkUpcase` does not end, whatever the number of iterations allowed. -/
theorem checkUpcase_never_ends (w z : Nat) (up : Nat → Nat)
    (cache : Nat → Option (List Nat)) (cs : Nat → Nat) (rootSector fuel : Nat)
    (root : List Nat)
    (hroot : cache (rootSector % 4294967296) = some root)
    (hsize : 2 ^ z ≤ (locateUpcase cs (rootSector % 4294967296) root).2 / 2)
    (hall : ∀ s, cache s ≠ none) :
    checkUpcase w z up cache cs rootSector fuel = none := by
  have hpos : 0 < 2 ^ z := Nat.pow_pos (by decide)
  unfold checkUpcase
  rw [hroot]
  simp only [if_neg (show (locateUpcase cs (rootSector % 4294967296) root).2 ≠ 0 by omega)]
  exact checkUpcaseLoop_never_ends w z up cache _ hsize hall fuel 0 _ [] false 0 hpos

/-- The full table of 65536 values (131072 bytes) on a platform with a 16-bit
`size_t`: `checkUpcase` does not end, whatever the number of iterations
allowed. -/
theorem checkUpcase_never_ends_example (fuel : Nat) :
    checkUpcase 16 16 (fun u => u) sampleCacheFullTable (fun c => c) 0 fuel = none :=
  checkUpcase_never_ends 16 16 (fun u => u) sampleCacheFullTable (fun c => c) 0 fuel
    sampleUpcaseRootFull (by decide) (by decide)
    (fun s => by unfold sampleCacheFullTable; split <;> simp)

/-- C7 (amended): for every upcase table given as a sequence of 16-bit values
(declared length twice their number) whose number of values is within the
range of the `size_t` loop counter (every table where `size_t` has 32 bits or
more, fewer than `2 ^ sizeBits` values otherwise), in which no skip-run length
is `0xFFFF` and no check falls on a code point at or past `0x10000`,
`checkUpcase` runs to `"Done checkUpcase"` and its mismatch lines are exactly
the findings of the reference decoder started at cursor 0: the value after an
escape is consumed
as a skip-run length, the code points `[cursor, cursor + n)` are checked
against themselves, any other value is checked against `toUpcase(cursor)`.
A value `0xFFFF` met while a skip is pending is an escape again: the skip
stays pending and the cursor does not move. -/
theorem checkUpcase_refines_refDecode (intBits sizeBits : Nat) (up : Nat → Nat)
    (dataCachePrepare : Nat → Option (List Nat)) (clusterStartSector : Nat → Nat)
    (rootSector fuel : Nat) (root : List Nat) (vals : List Nat) (hw : 16 ≤ intBits)
    (hroot : dataCachePrepare (rootSector % 4294967296) = some root)
    (hsize : (locateUpcase clusterStartSector (rootSector % 4294967296) root).2 ≠ 0)
    (hlen : vals.length
      = (locateUpcase clusterStartSector (rootSector % 4294967296) root).2 / 2)
    (htab : tableAt dataCachePrepare
      (locateUpcase clusterStartSector (rootSector % 4294967296) root).1 vals)
    (hz : 32 ≤ sizeBits ∨ vals.length < 2 ^ sizeBits) (hf : vals.length < fuel)
    (hin : inRange 0 vals) :
    checkUpcase intBits sizeBits up dataCachePrepare clusterStartSector rootSector fuel
        = some ⟨(decodeRun intBits up false 0 vals).2, UpcaseEnd.done⟩
      ∧ (decodeRun intBits up false 0 vals).2.filter UpcaseOut.isMismatch
        = refDecode up 0 vals
      ∧ ∀ u, checkUpcaseBody intBits up true u 0xFFFF = ((true, u), [UpcaseOut.skip u 0xFFFF]) :=
  ⟨checkUpcase_eq_decodeRun intBits sizeBits up dataCachePrepare clusterStartSector rootSector
      fuel root vals hroot hsize hlen htab hz hf,
    decodeRun_filter_eq_refDecode intBits up hw vals.length vals 0 (Nat.le_refl _) hin,
    fun u => by simp [checkUpcaseBody]⟩

/-- C7 as stated fails: in the table `[0xFFFF, 0xFFFF, 5]` the value after the
first escape is `0xFFFF`; `checkUpcase` takes it as an escape again and then
takes 5 as the skip-run length, whereas the reference decoder takes `0xFFFF` as
a skip-run length and 5 as the mapping of code point `0xFFFF`. -/
theorem checkUpcase_escape_after_escape_counterexample :
    tableAt (sampleUpcaseCache [0xFF, 0xFF, 0xFF, 0xFF, 5, 0]) 5 [0xFFFF, 0xFFFF, 5]
      ∧ checkUpcase 32 32 (fun u => u) (sampleUpcaseCache [0xFF, 0xFF, 0xFF, 0xFF, 5, 0])
          (fun c => c) 0 4
        = some ⟨[UpcaseOut.skip 0 0xFFFF, UpcaseOut.skip 0 5], UpcaseEnd.done⟩
      ∧ refDecode (fun u => u) 0 [0xFFFF, 0xFFFF, 5]
        = [UpcaseOut.mapMismatch 0xFFFF 0xFFFF 5] := by
  refine ⟨by decide, by decide, ?_⟩
  have hrun : (List.range 65535).filterMap (fun k =>
      if toUpcase (fun u => u) (0 + k) ≠ 0 + k then
        some (UpcaseOut.skipMismatch (0 + k) (toUpcase (fun u => u) (0 + k)))
      else none) = [] := by
    rw [List.filterMap_eq_nil_iff]
    intro k hk
    have hk2 : k < 65535 := List.mem_range.mp hk
    have : toUpcase (fun u => u) (0 + k) = 0 + k := by
      unfold toUpcase
      simp only [Nat.zero_add, Nat.mod_mod]
      exact Nat.mod_eq_of_lt (by omega)
    simp only [this, ne_eq, not_true_eq_false, if_false]
  rw [refDecode, if_pos rfl]
  simp only [hrun, List.nil_append]
  decide

/-- Witness of the amended C7: the table `[0xFFFF, 5]` of 4 bytes; the two
values are read, the code points 0..4 are checked against themselves and
nothing is mapped from the value 5. -/
theorem checkUpcase_refines_refDecode_witness :
    (checkUpcase 32 32 asciiUpcase (sampleUpcaseCache [0xFF, 0xFF, 5, 0]) (fun c => c) 0 3
        = some ⟨(decodeRun 32 asciiUpcase false 0 [0xFFFF, 5]).2, UpcaseEnd.done⟩
      ∧ (decodeRun 32 asciiUpcase false 0 [0xFFFF, 5]).2.filter UpcaseOut.isMismatch
        = refDecode asciiUpcase 0 [0xFFFF, 5]
      ∧ ∀ u, checkUpcaseBody 32 asciiUpcase true u 0xFFFF
          = ((true, u), [UpcaseOut.skip u 0xFFFF]))
      ∧ decodeRun 32 asciiUpcase false 0 [0xFFFF, 5] = ((false, 5), [UpcaseOut.skip 0 5])
      ∧ refDecode asciiUpcase 0 [0xFFFF, 5] = [] :=
  ⟨checkUpcase_refines_refDecode 32 32 asciiUpcase (sampleUpcaseCache [0xFF, 0xFF, 5, 0])
      (fun c => c) 0 3 (sampleUpcaseRoot 4) [0xFFFF, 5] (by decide) (by decide) (by decide)
      (by decide) (by decide) (Or.inl (by decide)) (by decide) (by simp [inRange]),
    by decide, by decide⟩

/-! ### A skip run past code point `0xFFFF` -/

theorem decodeRun_append (w : Nat) (up : Nat → Nat) :
    ∀ (a b : List Nat) (skip : Bool) (u : Nat),
      decodeRun w up skip u (a ++ b) =
        ((decodeRun w up (decodeRun w up skip u a).1.1 (decodeRun w up skip u a).1.2 b).1,
          (decodeRun w up skip u a).2 ++
            (decodeRun w up (decodeRun w up skip u a).1.1 (decodeRun w up skip u a).1.2 b).2) := by
  intro a
  induction a with
  | nil => intro b skip u; simp [decodeRun]
  | cons v vs ih => intro b skip u; simp [decodeRun, ih]

theorem checkUpcaseBody_cursor_lt (w : Nat) (up : Nat → Nat) (skip : Bool) (u v : Nat)
    (hu : u < 65536) : (checkUpcaseBody w up skip u v).1.2 < 65536 := by
  unfold checkUpcaseBody
  by_cases hv : v = 0xFFFF
  · simp only [hv, if_true]
    exact hu
  · cases skip
    · simp only [hv, if_false, Bool.false_eq_true]
      omega
    · simp only [hv, if_false, if_true]
      omega

theorem decodeRun_cursor_lt (w : Nat) (up : Nat → Nat) :
    ∀ (vals : List Nat) (skip : Bool) (u : Nat), u < 65536 →
      (decodeRun w up skip u vals).1.2 < 65536 := by
  intro vals
  induction vals with
  | nil => intro skip u hu; simpa [decodeRun] using hu
  | cons v vs ih =>
    intro skip u hu
    simp only [decodeRun]
    exact ih _ _ (checkUpcaseBody_cursor_lt w up skip u v hu)

theorem getLe16_lt (p : List Nat) : getLe16 p < 65536 := by
  unfold getLe16; omega

theorem tableAt_value_lt (cache : Nat → Option (List Nat)) (sector : Nat) (vals : List Nat)
    (h : tableAt cache sector vals) (i : Nat) (hi : i < vals.length) :
    vals.getD i 0 < 65536 := by
  have := h i hi
  unfold upcaseValueAt at this
  cases hc : cache ((sector + i / 256) % 4294967296) with
  | none => rw [hc] at this; simp at this
  | some c =>
    rw [hc] at this
    simp only [Option.map_some', Option.some.injEq] at this
    rw [← this]
    exact getLe16_lt _

theorem upcaseFindingKind_ne_malformed (o : UpcaseOut) :
    upcaseFindingKind o ≠ some UpcaseFindingKind.MalformedTable := by
  cases o <;> simp [upcaseFindingKind]

/-- C8 (amended): for every upcase table whose number of values is within the
range of the `size_t` loop counter (every table where `size_t` has 32 bits or
more, fewer than `2 ^ sizeBits` values otherwise) and which has a skip run
(`0xFFFF` followed by `n`, `n` not `0xFFFF`) that starts at cursor `u` with
`u + n > 0x10000`, `checkUpcase` runs to `"Done checkUpcase"` and silently
wraps: the 16-bit cursor is reduced modulo `2^16` to `u + n - 0x10000`, the
values after the run are checked from that wrapped cursor on (a mapping value
`v` that follows the run is compared with `toUpcase(u + n - 0x10000)`), and no
line of the output is a malformed-table finding. -/
theorem checkUpcase_skip_run_wraps (intBits sizeBits : Nat) (up : Nat → Nat)
    (dataCachePrepare : Nat → Option (List Nat)) (clusterStartSector : Nat → Nat)
    (rootSector fuel : Nat) (root : List Nat) (before : List Nat) (n : Nat) (after : List Nat)
    (hroot : dataCachePrepare (rootSector % 4294967296) = some root)
    (hsize : (locateUpcase clusterStartSector (rootSector % 4294967296) root).2 ≠ 0)
    (hlen : (before ++ 0xFFFF :: n :: after).length
      = (locateUpcase clusterStartSector (rootSector % 4294967296) root).2 / 2)
    (htab : tableAt dataCachePrepare
      (locateUpcase clusterStartSector (rootSector % 4294967296) root).1
      (before ++ 0xFFFF :: n :: after))
    (hz : 32 ≤ sizeBits ∨ (before ++ 0xFFFF :: n :: after).length < 2 ^ sizeBits)
    (hf : (before ++ 0xFFFF :: n :: after).length < fuel)
    (hn : n ≠ 0xFFFF)
    (hwrap : (decodeRun intBits up false 0 before).1.2 + n > 0x10000) :
    checkUpcase intBits sizeBits up dataCachePrepare clusterStartSector rootSector fuel
        = some ⟨(decodeRun intBits up false 0 before).2
            ++ (if (decodeRun intBits up false 0 before).1.1 = true then
                  [UpcaseOut.skip (decodeRun intBits up false 0 before).1.2 0xFFFF] else [])
            ++ UpcaseOut.skip (decodeRun intBits up false 0 before).1.2 n
              :: skipRunOut intBits up (decodeRun intBits up false 0 before).1.2 n
            ++ (decodeRun intBits up false
                  ((decodeRun intBits up false 0 before).1.2 + n - 0x10000) after).2,
          UpcaseEnd.done⟩
      ∧ (decodeRun intBits up false 0 (before ++ [0xFFFF, n])).1
          = (false, (decodeRun intBits up false 0 before).1.2 + n - 0x10000)
      ∧ (∀ r, checkUpcase intBits sizeBits up dataCachePrepare clusterStartSector rootSector fuel
            = some r →
          ∀ o ∈ r.out, upcaseFindingKind o ≠ some UpcaseFindingKind.MalformedTable)
      ∧ ∀ v rest, after = v :: rest → v ≠ 0xFFFF →
          (decodeRun intBits up false
              ((decodeRun intBits up false 0 before).1.2 + n - 0x10000) after).2
            = (if v ≠ toUpcase up ((decodeRun intBits up false 0 before).1.2 + n - 0x10000)
                then [UpcaseOut.mapMismatch
                  ((decodeRun intBits up false 0 before).1.2 + n - 0x10000)
                  (toUpcase up ((decodeRun intBits up false 0 before).1.2 + n - 0x10000)) v]
                else [])
              ++ (decodeRun intBits up false
                  (((decodeRun intBits up false 0 before).1.2 + n - 0x10000 + 1) % 65536)
                  rest).2 := by
  have hrun := checkUpcase_eq_decodeRun intBits sizeBits up dataCachePrepare clusterStartSector
    rootSector fuel root (before ++ 0xFFFF :: n :: after) hroot hsize hlen htab hz hf
  have hu : (decodeRun intBits up false 0 before).1.2 < 65536 :=
    decodeRun_cursor_lt intBits up before false 0 (by omega)
  have hnlt : n < 65536 := by
    have := tableAt_value_lt dataCachePrepare _ _ htab (before.length + 1) (by simp)
    rw [List.getD_append_right _ _ _ _ (by omega)] at this
    simpa using this
  have hmod : ((decodeRun intBits up false 0 before).1.2 + n) % 65536
      = (decodeRun intBits up false 0 before).1.2 + n - 0x10000 := by omega
  refine ⟨?_, ?_, fun r _ o _ => upcaseFindingKind_ne_malformed o, ?_⟩
  · rw [hrun, decodeRun_append]
    simp only [decodeRun, checkUpcaseBody, if_true, hn, if_false, hmod]
    simp
  · rw [decodeRun_append]
    simp only [decodeRun, checkUpcaseBody, if_true, hn, if_false, hmod]
  · intro v rest hafter hv
    subst hafter
    simp [decodeRun, checkUpcaseBody, hv]

theorem skipRunOut_wrap_wide :
    skipRunOut 32 (fun u => u) 3 65534 = [UpcaseOut.skipMismatch 0 0] := by
  unfold skipRunOut
  rw [show (65534 : Nat) = 65533 + 1 from rfl, List.range_succ, List.filterMap_append]
  have h1 : (List.range 65533).filterMap (fun k =>
      let s := (3 + k) % 2 ^ 32
      let x := toUpcase (fun u => u) s
      if x ≠ s then some (UpcaseOut.skipMismatch (s % 65536) x) else none) = [] := by
    rw [List.filterMap_eq_nil_iff]
    intro k hk
    have hk2 : k < 65533 := List.mem_range.mp hk
    have e1 : (3 + k) % 2 ^ 32 = 3 + k := Nat.mod_eq_of_lt (by norm_num; omega)
    have e2 : toUpcase (fun u => u) (3 + k) = 3 + k := by
      unfold toUpcase
      simp only [Nat.mod_mod]
      exact Nat.mod_eq_of_lt (by omega)
    simp only [e1, e2, ne_eq, not_true_eq_false, if_false]
  rw [h1]
  decide

theorem skipRunOut_wrap_narrow : skipRunOut 16 (fun u => u) 3 65534 = [] := by
  unfold skipRunOut
  rw [List.filterMap_eq_nil_iff]
  intro k _
  have e2 : toUpcase (fun u => u) ((3 + k) % 2 ^ 16) = (3 + k) % 2 ^ 16 := by
    unfold toUpcase
    norm_num
  simp only [e2, ne_eq, not_true_eq_false, if_false]

/-- C8 as stated fails: in the table `[0, 1, 2, 0xFFFF, 0xFFFE, 0x7777]` the skip
run starts at cursor 3 and `3 + 0xFFFE > 0x10000`.  `checkUpcase` reports no
malformed table: the cursor wraps to 1 and the next value `0x7777` is checked
against the wrapped-around code point 1.  With a 32-bit `int` the one skipped
position past `0xFFFF` prints a mismatch line for the wrapped code point 0;
with a 16-bit `int` the wrap leaves no trace in the output. -/
theorem checkUpcase_wrap_counterexample :
    tableAt (sampleUpcaseCache [0, 0, 1, 0, 2, 0, 0xFF, 0xFF, 0xFE, 0xFF, 0x77, 0x77]) 5
        [0, 1, 2, 0xFFFF, 0xFFFE, 0x7777]
      ∧ (decodeRun 32 (fun u => u) false 0 [0, 1, 2]).1 = (false, 3)
      ∧ checkUpcase 32 32 (fun u => u)
          (sampleUpcaseCache [0, 0, 1, 0, 2, 0, 0xFF, 0xFF, 0xFE, 0xFF, 0x77, 0x77])
          (fun c => c) 0 7
        = some ⟨[UpcaseOut.skip 3 0xFFFE, UpcaseOut.skipMismatch 0 0,
            UpcaseOut.mapMismatch 1 1 0x7777], UpcaseEnd.done⟩
      ∧ checkUpcase 16 32 (fun u => u)
          (sampleUpcaseCache [0, 0, 1, 0, 2, 0, 0xFF, 0xFF, 0xFE, 0xFF, 0x77, 0x77])
          (fun c => c) 0 7
        = some ⟨[UpcaseOut.skip 3 0xFFFE, UpcaseOut.mapMismatch 1 1 0x7777],
            UpcaseEnd.done⟩ := by
  refine ⟨by decide, by decide, ?_, ?_⟩
  · rw [checkUpcase_eq_decodeRun 32 32 (fun u => u) _ (fun c => c) 0 7 (sampleUpcaseRoot 12)
      [0, 1, 2, 0xFFFF, 0xFFFE, 0x7777] (by decide) (by decide) (by decide) (by decide)
      (Or.inl (by decide)) (by decide)]
    simp [decodeRun, checkUpcaseBody, toUpcase, skipRunOut_wrap_wide]
  · rw [checkUpcase_eq_decodeRun 16 32 (fun u => u) _ (fun c => c) 0 7 (sampleUpcaseRoot 12)
      [0, 1, 2, 0xFFFF, 0xFFFE, 0x7777] (by decide) (by decide) (by decide) (by decide)
      (Or.inl (by decide)) (by decide)]
    simp [decodeRun, checkUpcaseBody, toUpcase, skipRunOut_wrap_narrow]

/-- Witness of the amended C8 at the table `[0, 1, 2, 0xFFFF, 0xFFFE, 0x7777]`:
the cursor after the run is `3 + 0xFFFE - 0x10000 = 1`. -/
theorem checkUpcase_skip_run_wraps_witness :
    (decodeRun 32 (fun u => u) false 0 [0, 1, 2]).1.2 + 0xFFFE > 0x10000
      ∧ (decodeRun 32 (fun u => u) false 0 ([0, 1, 2] ++ [0xFFFF, 0xFFFE])).1
          = (false, (decodeRun 32 (fun u => u) false 0 [0, 1, 2]).1.2 + 0xFFFE - 0x10000) :=
  ⟨by decide,
    (checkUpcase_skip_run_wraps 32 32 (fun u => u)
      (sampleUpcaseCache [0, 0, 1, 0, 2, 0, 0xFF, 0xFF, 0xFE, 0xFF, 0x77, 0x77])
      (fun c => c) 0 7 (sampleUpcaseRoot 12) [0, 1, 2] 0xFFFE [0x7777]
      (by decide) (by decide) (by decide) (by decide) (Or.inl (by decide)) (by decide)
      (by decide) (by decide)).2.1⟩


/-! ## The table loop of `printUpcase` -/

theorem printUpcaseLoop_run (f : Nat → Nat → Nat) (cache : Nat → Option (List Nat))
    (sector0 size : Nat) (hz : size / 2 < 65536) :
    ∀ (vals : List Nat) (fuel i sector : Nat) (upcase : List Nat) (sum : Nat),
      upcaseLoopInv cache sector0 i sector upcase →
      i + vals.length = size / 2 → vals.length < fuel →
      (∀ k, k < vals.length → upcaseValueAt cache sector0 (i + k) = some (vals.getD k 0)) →
      printUpcaseLoop f cache size fuel i sector upcase sum
        = some ⟨upcaseRows i vals, PrintUpcaseEnd.checksum (tableChecksum f sum vals)⟩ := by
  intro vals
  induction vals with
  | nil =>
    intro fuel i sector upcase sum _ hi hf _
    obtain ⟨g, rfl⟩ : ∃ g, fuel = g + 1 := ⟨fuel - 1, by simp at hf; omega⟩
    rw [printUpcaseLoop, if_neg (by simp at hi; omega)]
    simp [upcaseRows, tableChecksum]
  | cons v vs ih =>
    intro fuel i sector upcase sum hinv hi hf hvals
    obtain ⟨g, rfl⟩ : ∃ g, fuel = g + 1 := ⟨fuel - 1, by simp at hf; omega⟩
    have hv := hvals 0 (by simp)
    simp only [Nat.add_zero, List.getD_cons_zero] at hv
    obtain ⟨s2, u2, hinv2, hget, hfetch⟩ :=
      checkUpcaseFetch_eq cache sector0 i sector v upcase hinv hv
    have hlt : i < size / 2 := by simp at hi; omega
    have hmod : (i + 1) % 65536 = i + 1 := Nat.mod_eq_of_lt (by simp at hi; omega)
    rw [printUpcaseLoop, if_pos hlt, hfetch]
    simp only [hget, hmod]
    rw [ih g (i + 1) s2 u2 _ hinv2 (by simp at hi; omega) (by simp at hf; omega)
      (fun k hk => by
        have := hvals (k + 1) (by simpa using hk)
        rw [List.getD_cons_succ] at this
        rw [← this]; congr 1; omega)]
    simp [upcaseRows, tableChecksum]

/-- With `size / 2 > 65535` and every sector read succeeding, the 16-bit counter
never reaches `size / 2`: the loop of `printUpcase` does not end, whatever the
number of iterations allowed. -/
theorem printUpcaseLoop_never_ends (f : Nat → Nat → Nat) (cache : Nat → Option (List Nat))
    (size : Nat) (hsize : 65536 ≤ size / 2) (hall : ∀ s, cache s ≠ none) :
    ∀ (fuel i sector : Nat) (upcase : List Nat) (sum : Nat), i < 65536 →
      printUpcaseLoop f cache size fuel i sector upcase sum = none := by
  intro fuel
  induction fuel with
  | zero => intro i sector upcase sum _; rfl
  | succ g ih =>
    intro i sector upcase sum hi
    obtain ⟨r, hr⟩ := checkUpcaseFetch_isSome cache i sector upcase hall
    rw [printUpcaseLoop, if_pos (by omega), hr]
    simp only
    rw [ih ((i + 1) % 65536) _ _ _ (Nat.mod_lt _ (by omega))]

/-- When the root directory sector can be read and the table it points to is
the sequence `vals` of `size / 2 ≤ 65535` values, `printUpcase` ends (given
more than `size / 2` iterations): it prints the values in file order and the
checksum line carries every value folded once, in file order, into the running
checksum starting from 0. -/
theorem printUpcase_eq_tableChecksum (f : Nat → Nat → Nat)
    (cache : Nat → Option (List Nat)) (cs : Nat → Nat) (rootSector fuel : Nat)
    (root : List Nat) (vals : List Nat)
    (hroot : cache (rootSector % 4294967296) = some root)
    (hsize : (locateUpcase cs (rootSector % 4294967296) root).2 ≠ 0)
    (hlen : vals.length = (locateUpcase cs (rootSector % 4294967296) root).2 / 2)
    (htab : tableAt cache (locateUpcase cs (rootSector % 4294967296) root).1 vals)
    (hshort : vals.length < 65536) (hf : vals.length < fuel) :
    printUpcase f cache cs rootSector fuel
      = some ⟨upcaseRows 0 vals, PrintUpcaseEnd.checksum (tableChecksum f 0 vals)⟩ := by
  unfold printUpcase
  rw [hroot]
  simp only [if_neg hsize]
  have hlt := locateUpcase_fst_lt cs rootSector root
  exact printUpcaseLoop_run f cache (locateUpcase cs (rootSector % 4294967296) root).1
    (locateUpcase cs (rootSector % 4294967296) root).2 (by rw [← hlen]; exact hshort) vals fuel 0
    (locateUpcase cs (rootSector % 4294967296) root).1 [] 0
    ⟨by omega, fun h => absurd rfl h⟩ (by rw [Nat.zero_add]; exact hlen) hf
    (fun k hk => by rw [Nat.zero_add]; exact htab k hk)

/-- The table `[0xFFFF, 5]` of 4 bytes with the sum as checksum primitive:
`printUpcase` prints the two values and the checksum `0xFFFF + 5`. -/
theorem printUpcase_eq_tableChecksum_example :
    printUpcase (fun uc sum => sum + uc) (sampleUpcaseCache [0xFF, 0xFF, 5, 0]) (fun c => c) 0 3
      = some ⟨[PrintUpcaseOut.row 0, PrintUpcaseOut.value 0xFFFF, PrintUpcaseOut.value 5],
          PrintUpcaseEnd.checksum 0x10004⟩ :=
  printUpcase_eq_tableChecksum (fun uc sum => sum + uc) (sampleUpcaseCache [0xFF, 0xFF, 5, 0])
    (fun c => c) 0 3 (sampleUpcaseRoot 4) [0xFFFF, 5] (by decide) (by decide) (by decide)
    (by decide) (by decide) (by decide)

/-- When the declared byte length is at least 131072 and every sector read
succeeds, `printUpcase` does not end, whatever the number of iterations
allowed. -/
theorem printUpcase_never_ends (f : Nat → Nat → Nat)
    (cache : Nat → Option (List Nat)) (cs : Nat → Nat) (rootSector : Nat)
    (hall : ∀ s, cache s ≠ none)
    (hsize : ∀ root, cache (rootSector % 4294967296) = some root →
      131072 ≤ (locateUpcase cs (rootSector % 4294967296) root).2)
    (fuel : Nat) :
    printUpcase f cache cs rootSector fuel = none := by
  unfold printUpcase
  cases hc : cache (rootSector % 4294967296) with
  | none => exact absurd hc (hall _)
  | some root =>
    have hs := hsize root hc
    simp only [if_neg (show ¬ (locateUpcase cs (rootSector % 4294967296) root).2 = 0 by omega)]
    exact printUpcaseLoop_never_ends f cache _ (by omega) hall fuel 0 _ [] 0 (by omega)

/-- C11 fails on the code: the root directory declares an upcase table of
131072 bytes (65536 values, the length of an uncompressed table) and every
sector read succeeds.  The table-checksum pass of `printUpcase` never ends,
whatever the checksum primitive and however many iterations are allowed: the
`uint16_t` counter wraps from 65535 to 0 and stays below `size / 2 = 65536`. -/
theorem printUpcase_full_table_never_ends (f : Nat → Nat → Nat) (fuel : Nat) :
    (∀ s, sampleCacheFullTable s ≠ none)
      ∧ (locateUpcase (fun c => c) 0 sampleUpcaseRootFull).2 = 131072
      ∧ printUpcase f sampleCacheFullTable (fun c => c) 0 fuel = none := by
  have hall : ∀ s, sampleCacheFullTable s ≠ none := by
    intro s
    unfold sampleCacheFullTable
    split <;> simp
  have hloc : (locateUpcase (fun c => c) 0 sampleUpcaseRootFull).2 = 131072 := by decide
  refine ⟨hall, hloc, ?_⟩
  apply printUpcase_never_ends f sampleCacheFullTable (fun c => c) 0 hall
  intro root hroot
  have hr : root = sampleUpcaseRootFull := by
    have : sampleCacheFullTable (0 % 4294967296) = some sampleUpcaseRootFull := by decide
    rw [this] at hroot
    exact (Option.some.inj hroot).symm
  rw [hr, show (0 : Nat) % 4294967296 = 0 from rfl, hloc]


end ExFatDbg
